import Mathlib

/-
Verification of the loker secrets-manager service.

The secret/version/stage state machine lives in the request handlers
(`src/handlers/*.rs`), which call typed CRUD primitives from
`src/database/secrets.rs`.  That file is declared (`pub mod secrets;` in
`src/database/mod.rs`) but is not part of the published sources, so the
store primitives below are modelled from the specification; the handler
logic itself is translated directly from the Rust sources.

Machine integers: timestamps are modelled as `Int` seconds since the Unix
epoch; byte payloads as `List Nat`.
-/

set_option autoImplicit false

namespace Loker

/-! ## Data model -/

/-- Modelled from the spec: a Secret row (`src/database/secrets.rs` is not in
the published sources).  `arn` and `name` are unique; `scheduled_delete_at`
is the soft-delete marker set by DeleteSecret and cleared by RestoreSecret. -/
structure Secret where
  arn : String
  name : String
  description : Option String
  createdAt : Int
  scheduledDeleteAt : Option Int
  deletedAt : Option Int
deriving DecidableEq, Repr

/-- Modelled from the spec: a Version row, keyed by (`secret_arn`,
`version_id`), holding the payload and timestamps. -/
structure Version where
  secretArn : String
  versionId : String
  secretString : Option String
  secretBinary : Option (List Nat)
  createdAt : Int
  lastAccessedAt : Option Int
deriving DecidableEq, Repr

/-- Modelled from the spec: a Stage row, a labeled pointer
(`secret_arn`, `version_id`, `stage_label`) with a database uniqueness
constraint on (`secret_arn`, `stage_label`). -/
structure Stage where
  secretArn : String
  versionId : String
  label : String
deriving DecidableEq, Repr

/-- Modelled from the spec: a Tag row (`secret_arn`, `key`) with a value. -/
structure Tag where
  secretArn : String
  key : String
  value : String
deriving DecidableEq, Repr

/-- Modelled from the spec: the durable state of the Store, the four entity
tables of the encrypted relational file. -/
structure Store where
  secrets : List Secret
  versions : List Version
  stages : List Stage
  tags : List Tag
deriving DecidableEq, Repr

/-- Database-level error (`DbErr`).  The handlers distinguish only the
uniqueness violation; every other database failure is collapsed to
`InternalServiceError` by `From<DbErr> for AwsError` (`handlers/error.rs`). -/
inductive DbError where
  | uniqueViolation
deriving DecidableEq, Repr

/-- The error taxonomy of `handlers/error.rs` (the kinds used by the secret
engine handlers). -/
inductive AwsError where
  | internalServiceError
  | invalidRequestException
  | resourceExistsException
  | resourceNotFoundException
deriving DecidableEq, Repr

/-! ## Store primitives

Modelled from the spec (`src/database/secrets.rs` is missing from the
sources): typed CRUD primitives over the four entities, failing with a
distinguishable uniqueness violation. -/

/-- Modelled from the spec: insert a Secret row; `arn` and `name` are unique
columns, a collision is a uniqueness violation. -/
def create_secret (s : Store) (arn name : String) (description : Option String)
    (now : Int) : Except DbError Store :=
  if s.secrets.any (fun x => x.name == name || x.arn == arn) then
    .error .uniqueViolation
  else
    .ok { s with secrets :=
      ⟨arn, name, description, now, none, none⟩ :: s.secrets }

/-- Modelled from the spec: insert a Version row; (`secret_arn`,
`version_id`) is a unique key. -/
def create_secret_version (s : Store) (arn versionId : String)
    (secretString : Option String) (secretBinary : Option (List Nat))
    (now : Int) : Except DbError Store :=
  if s.versions.any (fun v => v.secretArn == arn && v.versionId == versionId) then
    .error .uniqueViolation
  else
    .ok { s with versions :=
      ⟨arn, versionId, secretString, secretBinary, now, none⟩ :: s.versions }

/-- Modelled from the spec: attach a stage label to a version; the database
enforces at most one version per secret holding a given label
(uniqueness on (`secret_arn`, `stage_label`)). -/
def add_secret_version_stage (s : Store) (arn versionId label : String) :
    Except DbError Store :=
  if s.stages.any (fun st => st.secretArn == arn && st.label == label) then
    .error .uniqueViolation
  else
    .ok { s with stages := ⟨arn, versionId, label⟩ :: s.stages }

/-- Modelled from the spec: remove a stage label from whatever version of the
secret currently holds it. -/
def remove_secret_version_stage_any (s : Store) (arn label : String) : Store :=
  { s with stages :=
      s.stages.filter (fun st => !(st.secretArn == arn && st.label == label)) }

/-- Modelled from the spec: unattach a stage from one specific version,
returning the number of rows affected. -/
def remove_secret_version_stage (s : Store) (arn versionId label : String) :
    Nat × Store :=
  let n := s.stages.countP
    (fun st => st.secretArn == arn && st.versionId == versionId && st.label == label)
  let rest := s.stages.filter
    (fun st => !(st.secretArn == arn && st.versionId == versionId && st.label == label))
  (n, { s with stages := rest })

/-- Modelled from the spec: upsert a tag (`secret_arn`, `key`) → value. -/
def put_secret_tag (s : Store) (arn key value : String) : Store :=
  if s.tags.any (fun t => t.secretArn == arn && t.key == key) then
    let tags' := s.tags.map
      (fun t => if t.secretArn == arn && t.key == key then ⟨arn, key, value⟩ else t)
    { s with tags := tags' }
  else
    { s with tags := ⟨arn, key, value⟩ :: s.tags }

/-- Map one secret row (matched by ARN) through `g`, leaving the other
tables untouched.  Shared shape of the scheduled-delete updates. -/
def mapSecretRow (s : Store) (arn : String) (g : Secret → Secret) : Store :=
  { s with secrets := s.secrets.map (fun x => if x.arn == arn then g x else x) }

/-- Modelled from the spec: set `scheduled_delete_at` to the given instant. -/
def schedule_delete_secret (s : Store) (arn : String) (at_ : Int) : Store :=
  mapSecretRow s arn (fun x => { x with scheduledDeleteAt := some at_ })

/-- Modelled from the spec: RestoreSecret clears `scheduled_delete_at` and
`deleted_at` on the addressed secret. -/
def cancel_delete_secret (s : Store) (arn : String) : Store :=
  mapSecretRow s arn (fun x => { x with scheduledDeleteAt := none, deletedAt := none })

/-- Modelled from the spec: hard-delete a secret, cascading its versions,
stages and tags. -/
def delete_secret (s : Store) (arn : String) : Store :=
  { secrets := s.secrets.filter (fun x => !(x.arn == arn)),
    versions := s.versions.filter (fun v => !(v.secretArn == arn)),
    stages := s.stages.filter (fun st => !(st.secretArn == arn)),
    tags := s.tags.filter (fun t => !(t.secretArn == arn)) }

/-- Modelled from the spec: stamp `last_accessed_at` on one version. -/
def update_secret_version_last_accessed (s : Store) (arn versionId : String)
    (today : Int) : Store :=
  let versions' := s.versions.map
    (fun v => if v.secretArn == arn && v.versionId == versionId then
        { v with lastAccessedAt := some today } else v)
  { s with versions := versions' }

/-! ## Store lookups -/

/-- The joined secret-and-version row the lookups return: secret metadata
plus one version's payload and its stage labels. -/
structure SecretWithVersion where
  arn : String
  name : String
  description : Option String
  createdAt : Int
  scheduledDeleteAt : Option Int
  versionId : String
  secretString : Option String
  secretBinary : Option (List Nat)
  versionCreatedAt : Int
  versionStages : List String
deriving DecidableEq, Repr

/-- Modelled from the spec: resolve a secret row by ARN-or-name match on the
supplied `secret_id`. -/
def findSecret (s : Store) (secretId : String) : Option Secret :=
  s.secrets.find? (fun x => x.arn == secretId || x.name == secretId)

/-- Find the stage row of a secret holding the given label (unique if the
stage invariant holds). -/
def findStageByLabel (s : Store) (arn label : String) : Option Stage :=
  s.stages.find? (fun st => st.secretArn == arn && st.label == label)

/-- Find a version row by (`secret_arn`, `version_id`). -/
def findVersion (s : Store) (arn versionId : String) : Option Version :=
  s.versions.find? (fun v => v.secretArn == arn && v.versionId == versionId)

/-- All stage labels attached to one version. -/
def versionStagesOf (s : Store) (arn versionId : String) : List String :=
  (s.stages.filter (fun st => st.secretArn == arn && st.versionId == versionId)).map
    (fun st => st.label)

/-- Assemble the joined row for a secret and one of its versions. -/
def joinedRow (s : Store) (x : Secret) (v : Version) : SecretWithVersion :=
  { arn := x.arn, name := x.name, description := x.description,
    createdAt := x.createdAt, scheduledDeleteAt := x.scheduledDeleteAt,
    versionId := v.versionId, secretString := v.secretString,
    secretBinary := v.secretBinary, versionCreatedAt := v.createdAt,
    versionStages := versionStagesOf s x.arn v.versionId }

/-- Modelled from the spec: resolve the latest version of a secret — the
version currently holding `AWSCURRENT` (GetSecretValue with neither
selector resolves "the version currently holding AWSCURRENT" through this
query). -/
def get_secret_latest_version (s : Store) (secretId : String) :
    Option SecretWithVersion := do
  let x ← findSecret s secretId
  let st ← findStageByLabel s x.arn "AWSCURRENT"
  let v ← findVersion s x.arn st.versionId
  pure (joinedRow s x v)

/-- Modelled from the spec: resolve a secret's version by version id. -/
def get_secret_by_version_id (s : Store) (secretId versionId : String) :
    Option SecretWithVersion := do
  let x ← findSecret s secretId
  let v ← findVersion s x.arn versionId
  pure (joinedRow s x v)

/-- Modelled from the spec: resolve a secret's version by the stage label it
holds. -/
def get_secret_by_version_stage (s : Store) (secretId label : String) :
    Option SecretWithVersion := do
  let x ← findSecret s secretId
  let st ← findStageByLabel s x.arn label
  let v ← findVersion s x.arn st.versionId
  pure (joinedRow s x v)

/-- Modelled from the spec: resolve the version row where both the version
id and the stage label match. -/
def get_secret_by_version_stage_and_id (s : Store)
    (secretId versionId label : String) : Option SecretWithVersion := do
  let x ← findSecret s secretId
  let _ ← s.stages.find?
    (fun st => st.secretArn == x.arn && st.versionId == versionId && st.label == label)
  let v ← findVersion s x.arn versionId
  pure (joinedRow s x v)

/-! ## Transaction discipline

Translated from `src/database/mod.rs`: `transaction` runs the action and
commits on success; on any error return it rolls the database back, so the
caller observes the original state. -/

/-- Translated from `transaction` in `src/database/mod.rs`: the body threads
the store; an error return discards the body's writes (rollback). -/
def transaction {α : Type} (body : Store → Except AwsError α × Store)
    (s : Store) : Except AwsError α × Store :=
  match body s with
  | (.ok a, s') => (.ok a, s')
  | (.error e, _) => (.error e, s)

/-! ## CreateSecret

Translated from `CreateSecretHandler::handle` in
`src/handlers/create_secret.rs`.  The generated ARN (random suffix) and the
resolved client request token are taken as arguments; `now` stands for the
insertion timestamps. -/

structure CreateSecretResponse where
  arn : String
  name : String
  versionId : String
deriving DecidableEq, Repr

/-- The transactional body of CreateSecret: insert the secret (uniqueness
violation triggers the idempotent-replay check against the version stored
under the client request token), insert the first version (same replay check),
attach `AWSCURRENT`, upsert the tags. -/
def createSecretBody (arn name : String) (versionId : String)
    (description : Option String) (secretString : Option String)
    (secretBinary : Option (List Nat)) (tags : List (String × String))
    (now : Int) (s : Store) : Except AwsError CreateSecretResponse × Store :=
  match create_secret s arn name description now with
  | .error .uniqueViolation =>
    match get_secret_by_version_id s name versionId with
    | none =>
      -- the version we tried to store was not created: already exists
      (.error .resourceExistsException, s)
    | some sec =>
      if sec.secretString ≠ secretString ∨ sec.secretBinary ≠ secretBinary then
        (.error .resourceExistsException, s)
      else
        -- request has already been fulfilled
        (.ok ⟨sec.arn, name, versionId⟩, s)
  | .ok s1 =>
    match create_secret_version s1 arn versionId secretString secretBinary now with
    | .error .uniqueViolation =>
      match get_secret_by_version_id s1 arn versionId with
      | none => (.error .internalServiceError, s1)
      | some sec =>
        if sec.secretString ≠ secretString ∨ sec.secretBinary ≠ secretBinary then
          (.error .resourceExistsException, s1)
        else
          (.ok ⟨arn, name, versionId⟩, s1)
    | .ok s2 =>
      match add_secret_version_stage s2 arn versionId "AWSCURRENT" with
      | .error _ => (.error .internalServiceError, s2)
      | .ok s3 =>
        let s4 := tags.foldl (fun acc t => put_secret_tag acc arn t.1 t.2) s3
        (.ok ⟨arn, name, versionId⟩, s4)

/-- `CreateSecretHandler::handle`: payload-shape checks, then the
transactional body. -/
def createSecretHandler (arn name versionId : String)
    (description : Option String) (secretString : Option String)
    (secretBinary : Option (List Nat)) (tags : List (String × String))
    (now : Int) (s : Store) : Except AwsError CreateSecretResponse × Store :=
  if secretString.isSome ∧ secretBinary.isSome then
    (.error .invalidRequestException, s)
  else if secretString.isNone ∧ secretBinary.isNone then
    (.error .invalidRequestException, s)
  else
    transaction
      (createSecretBody arn name versionId description secretString secretBinary tags now) s

/-! ## PutSecretValue

Translated from `PutSecretValueHandler::handle` in
`src/handlers/put_secret_value.rs`.  The handler manages its transaction by
hand: on a version-id uniqueness violation it rolls back and re-reads from
the pool; any later error drops the transaction (rollback), so an error
result leaves the store unchanged. -/

structure PutSecretValueResponse where
  arn : String
  name : String
  versionId : String
  versionStages : List String
deriving DecidableEq, Repr

/-- The `AWSCURRENT`-promotion step of the PutSecretValue stage loop: when
the label being assigned is `AWSCURRENT`, strip `AWSPREVIOUS` everywhere and
attach it to the prior current version (`oldVersionId`). -/
def putStagePromote (arn oldVersionId label : String) (s1 : Store) :
    Except AwsError Store :=
  if label = "AWSCURRENT" then
    let s2 := remove_secret_version_stage_any s1 arn "AWSPREVIOUS"
    match add_secret_version_stage s2 arn oldVersionId "AWSPREVIOUS" with
    | .error _ => .error .internalServiceError
    | .ok s3 => .ok s3
  else .ok s1

/-- One iteration of the PutSecretValue stage loop: remove the label from
any holder, run the `AWSCURRENT`-promotion step, attach the label to the
new version.  Database errors map to `InternalServiceError`. -/
def putStageStep (arn oldVersionId newVersionId label : String) (s : Store) :
    Except AwsError Store :=
  let s1 := remove_secret_version_stage_any s arn label
  match putStagePromote arn oldVersionId label s1 with
  | .error e => .error e
  | .ok s2 =>
    match add_secret_version_stage s2 arn newVersionId label with
    | .error _ => .error .internalServiceError
    | .ok s3 => .ok s3

/-- The per-label stage loop of PutSecretValue. -/
def putStagesLoop (arn oldVersionId newVersionId : String) :
    List String → Store → Except AwsError Store
  | [], s => .ok s
  | label :: rest, s =>
    match putStageStep arn oldVersionId newVersionId label s with
    | .error e => .error e
    | .ok s3 => putStagesLoop arn oldVersionId newVersionId rest s3

/-- PutSecretValue after the version-stage list has been defaulted: payload
checks, resolution of the secret's current version, version insert with
idempotent replay, then the stage loop. -/
def putSecretValueResolved (secretId versionId : String)
    (secretString : Option String) (secretBinary : Option (List Nat))
    (versionStages : List String) (now : Int) (s : Store) :
    Except AwsError (PutSecretValueResponse × Store) :=
  if secretString.isSome ∧ secretBinary.isSome then
    .error .invalidRequestException
  else if secretString.isNone ∧ secretBinary.isNone then
    .error .invalidRequestException
  else
    match get_secret_latest_version s secretId with
    | none => .error .resourceNotFoundException
    | some secret =>
      match create_secret_version s secret.arn versionId secretString secretBinary now with
      | .error .uniqueViolation =>
        -- rollback, then re-read the stored version from the pool
        match get_secret_by_version_id s secret.arn versionId with
        | none => .error .internalServiceError
        | some sec =>
          if sec.secretString ≠ secretString ∨ sec.secretBinary ≠ secretBinary then
            .error .resourceExistsException
          else
            .ok (⟨sec.arn, sec.name, sec.versionId, sec.versionStages⟩, s)
      | .ok s1 =>
        match putStagesLoop secret.arn secret.versionId versionId versionStages s1 with
        | .error e => .error e
        | .ok s2 => .ok (⟨secret.arn, secret.name, versionId, versionStages⟩, s2)

/-- `PutSecretValueHandler::handle`.  An `Except.error` result models the
rolled-back (dropped or explicitly rolled back) transaction: the caller's
store is unchanged. -/
def putSecretValueHandler (secretId versionId : String)
    (secretString : Option String) (secretBinary : Option (List Nat))
    (versionStagesReq : Option (List String)) (now : Int) (s : Store) :
    Except AwsError (PutSecretValueResponse × Store) :=
  match versionStagesReq with
  | some v =>
    if v = [] then .error .invalidRequestException
    else putSecretValueResolved secretId versionId secretString secretBinary v now s
  | none =>
    putSecretValueResolved secretId versionId secretString secretBinary
      ["AWSCURRENT"] now s

/-! ## GetSecretValue

Translated from `GetSecretValueHandler::handle` in
`src/handlers/get_secret_value.rs`. -/

structure GetSecretValueResponse where
  arn : String
  createdDate : Int
  name : String
  secretString : Option String
  secretBinary : Option (List Nat)
  versionId : String
  versionStages : List String
deriving DecidableEq, Repr

/-- The version-selection match of GetSecretValue: both selectors, version
id alone, version stage alone, or the current version. -/
def resolveVersion (s : Store) (secretId : String)
    (versionId versionStage : Option String) : Option SecretWithVersion :=
  match versionId, versionStage with
  | none, none => get_secret_latest_version s secretId
  | some vid, some vs => get_secret_by_version_stage_and_id s secretId vid vs
  | some vid, none => get_secret_by_version_id s secretId vid
  | none, some vs => get_secret_by_version_stage s secretId vs

/-- `GetSecretValueHandler::handle`: resolve the version, reject a secret
scheduled for deletion, stamp the access timestamp and return the payload. -/
def getSecretValueHandler (secretId : String)
    (versionId versionStage : Option String) (today : Int) (s : Store) :
    Except AwsError (GetSecretValueResponse × Store) :=
  match resolveVersion s secretId versionId versionStage with
  | none => .error .resourceNotFoundException
  | some secret =>
    if secret.scheduledDeleteAt.isSome then
      .error .invalidRequestException
    else
      let s1 := update_secret_version_last_accessed s secret.arn secret.versionId today
      let createdDate := if versionId.isSome then secret.versionCreatedAt else secret.createdAt
      .ok (⟨secret.arn, createdDate, secret.name, secret.secretString,
            secret.secretBinary, secret.versionId, secret.versionStages⟩, s1)

/-! ## DeleteSecret / RestoreSecret

Translated from `DeleteSecretHandler::handle` in
`src/handlers/delete_secret.rs` and `RestoreSecretHandler::handle` in
`src/handlers/restore_secret.rs`. -/

structure DeleteSecretResponse where
  arn : String
  name : String
  deletionDate : Int
deriving DecidableEq, Repr

/-- `DeleteSecretHandler::handle`: if a deletion is already scheduled,
return its date unchanged; else hard-delete when forced, otherwise schedule
`now + recovery_window_in_days`. -/
def deleteSecretHandler (secretId : String) (forceDeleteWithoutRecovery : Bool)
    (recoveryWindowInDays : Int) (now : Int) (s : Store) :
    Except AwsError (DeleteSecretResponse × Store) :=
  match get_secret_latest_version s secretId with
  | none => .error .resourceNotFoundException
  | some secret =>
    match secret.scheduledDeleteAt with
    | some d =>
      -- secret is already scheduled for deletion
      .ok (⟨secret.arn, secret.name, d⟩, s)
    | none =>
      if forceDeleteWithoutRecovery then
        .ok (⟨secret.arn, secret.name, now⟩, delete_secret s secret.arn)
      else
        let d := now + recoveryWindowInDays * 86400
        .ok (⟨secret.arn, secret.name, d⟩, schedule_delete_secret s secret.arn d)

structure RestoreSecretResponse where
  arn : String
  name : String
deriving DecidableEq, Repr

/-- `RestoreSecretHandler::handle`: resolve, then clear the scheduled-delete
marker. -/
def restoreSecretHandler (secretId : String) (s : Store) :
    Except AwsError (RestoreSecretResponse × Store) :=
  match get_secret_latest_version s secretId with
  | none => .error .resourceNotFoundException
  | some secret =>
    .ok (⟨secret.arn, secret.name⟩, cancel_delete_secret s secret.arn)

/-! ## UpdateSecretVersionStage

Translated from `UpdateSecretVersionStageHandler::handle` in
`src/handlers/update_secret_version_stage.rs`.  The handler resolves the
secret outside the transaction, then runs the three stage steps inside
`transaction` so that any error rolls every step back. -/

structure UpdateSecretVersionStageResponse where
  arn : String
  name : String
deriving DecidableEq, Repr

/-- Step 3 of UpdateSecretVersionStage: attach the stage to the destination
version; a uniqueness violation (stage already attached elsewhere) is an
`InvalidRequestException`. -/
def updateStageMove (secret : SecretWithVersion) (versionStage : String)
    (moveToVersionId : Option String) (s : Store) :
    Except AwsError SecretWithVersion × Store :=
  match moveToVersionId with
  | some dest =>
    match add_secret_version_stage s secret.arn dest versionStage with
    | .error .uniqueViolation => (.error .invalidRequestException, s)
    | .ok s1 => (.ok secret, s1)
  | none => (.ok secret, s)

/-- Step 2 of UpdateSecretVersionStage: when re-assigning `AWSCURRENT`,
strip `AWSPREVIOUS` from all versions and attach it to the current holder
(the resolved `secret.versionId`) before the move. -/
def updateStagePromote (secret : SecretWithVersion) (versionStage : String)
    (moveToVersionId : Option String) (s : Store) :
    Except AwsError SecretWithVersion × Store :=
  if versionStage = "AWSCURRENT" ∧ moveToVersionId.isSome then
    let s1 := remove_secret_version_stage_any s secret.arn "AWSPREVIOUS"
    match add_secret_version_stage s1 secret.arn secret.versionId "AWSPREVIOUS" with
    | .error _ => (.error .internalServiceError, s1)
    | .ok s2 => updateStageMove secret versionStage moveToVersionId s2
  else
    updateStageMove secret versionStage moveToVersionId s

/-- The transactional body of UpdateSecretVersionStage: optional removal
(zero rows affected is an `InvalidRequestException`), the `AWSCURRENT`
promotion dance, then the move. -/
def updateStageBody (secret : SecretWithVersion) (versionStage : String)
    (moveToVersionId removeFromVersionId : Option String) (s : Store) :
    Except AwsError SecretWithVersion × Store :=
  match removeFromVersionId with
  | some src =>
    match remove_secret_version_stage s secret.arn src versionStage with
    | (n, s1) =>
      if n < 1 then (.error .invalidRequestException, s1)
      else updateStagePromote secret versionStage moveToVersionId s1
  | none => updateStagePromote secret versionStage moveToVersionId s

/-- `UpdateSecretVersionStageHandler::handle`: resolve the secret, run the
stage steps inside a transaction, and answer with the secret's ARN and
name. -/
def updateSecretVersionStageHandler (secretId versionStage : String)
    (moveToVersionId removeFromVersionId : Option String) (s : Store) :
    Except AwsError UpdateSecretVersionStageResponse × Store :=
  match get_secret_latest_version s secretId with
  | none => (.error .resourceNotFoundException, s)
  | some secret =>
    match transaction (updateStageBody secret versionStage moveToVersionId removeFromVersionId) s with
    | (.ok sec, s') => (.ok ⟨sec.arn, sec.name⟩, s')
    | (.error e, s') => (.error e, s')

/-! ## AuthGate: string splitting

Header values are modelled as `List Char`.  The splitters mirror the `str`
iterators used by `src/utils/aws_sig_v4.rs`: `splitn(2, c)`, `split(c)` and
`split(", ")`. -/

/-- Rust `splitn(2, sep)`: the text before the first separator, and the
remainder after it when the separator occurs. -/
def splitOnceChar (sep : Char) : List Char → List Char × Option (List Char)
  | [] => ([], none)
  | c :: rest =>
    if c = sep then ([], some rest)
    else
      let (a, b) := splitOnceChar sep rest
      (c :: a, b)

/-- Rust `split(sep)` for a one-character separator: every (possibly empty)
segment, at least one. -/
def splitChar (sep : Char) : List Char → List (List Char)
  | [] => [[]]
  | c :: rest =>
    if c = sep then [] :: splitChar sep rest
    else
      match splitChar sep rest with
      | [] => [[c]]
      | seg :: segs => (c :: seg) :: segs

/-- Rust `split(", ")`: split on the two-character comma-space separator,
leftmost non-overlapping occurrences. -/
def splitCommaSpace : List Char → List (List Char)
  | [] => [[]]
  | ',' :: ' ' :: rest => [] :: splitCommaSpace rest
  | c :: rest =>
    match splitCommaSpace rest with
    | [] => [[c]]
    | seg :: segs => (c :: seg) :: segs

/-! ## AuthGate: Authorization header parsing

Translated from `parse_auth_header` and `parse_signing_scope` in
`src/utils/aws_sig_v4.rs`. -/

inductive AuthHeaderError where
  | invalidHeader
  | unsupportedAlgorithm
  | invalidKeyValue
  | missingCredential
  | missingSignedHeaders
  | missingSignature
  | invalidScope
deriving DecidableEq, Repr

/-- The parsed credential scope
`access_key_id/yyyymmdd/region/service/aws4_request`. -/
structure SigningScope where
  accessKeyId : List Char
  dateYyyymmdd : List Char
  region : List Char
  service : List Char
  aws4Request : List Char
deriving DecidableEq, Repr

/-- The parsed AWS SigV4 Authorization header. -/
structure AwsSigV4Auth where
  signingScope : SigningScope
  signedHeaders : List (List Char)
  signature : List Char
deriving DecidableEq, Repr

/-- Translated from `parse_signing_scope`: five `next()` calls on
`value.split('/')` — the first five segments, any further segments are
never looked at. -/
def parse_signing_scope (value : List Char) : Option SigningScope :=
  match splitChar '/' value with
  | a :: b :: c :: d :: e :: _ => some ⟨a, b, c, d, e⟩
  | _ => none

/-- The key/value fold of `parse_auth_header`: each comma-space separated
item splits once on the equals sign (no value: `InvalidKeyValue`) and the
recognised keys overwrite the three slots. -/
def collectKeyValues :
    List (List Char) → Option (List Char) → Option (List Char) → Option (List Char) →
    Except AuthHeaderError (Option (List Char) × Option (List Char) × Option (List Char))
  | [], cred, sh, sig => .ok (cred, sh, sig)
  | kv :: rest, cred, sh, sig =>
    match splitOnceChar '=' kv with
    | (_, none) => .error .invalidKeyValue
    | (key, some value) =>
      if key = "Credential".toList then collectKeyValues rest (some value) sh sig
      else if key = "SignedHeaders".toList then collectKeyValues rest cred (some value) sig
      else if key = "Signature".toList then collectKeyValues rest cred sh (some value)
      else collectKeyValues rest cred sh sig

/-- Translated from `parse_auth_header`: algorithm token, key/value list,
required entries, signed-header list, credential scope. -/
def parse_auth_header (header : List Char) : Except AuthHeaderError AwsSigV4Auth :=
  match splitOnceChar ' ' header with
  | (algorithm, restOpt) =>
    if algorithm ≠ "AWS4-HMAC-SHA256".toList then .error .unsupportedAlgorithm
    else
      match restOpt with
      | none => .error .invalidHeader
      | some kvString =>
        match collectKeyValues (splitCommaSpace kvString) none none none with
        | .error e => .error e
        | .ok (credOpt, shOpt, sigOpt) =>
          match credOpt with
          | none => .error .missingCredential
          | some credential =>
            match shOpt with
            | none => .error .missingSignedHeaders
            | some signedHeaders =>
              match sigOpt with
              | none => .error .missingSignature
              | some signature =>
                match parse_signing_scope credential with
                | none => .error .invalidScope
                | some scope => .ok ⟨scope, splitChar ';' signedHeaders, signature⟩

/-! ## AuthGate: date parsing

Translated from `parse_amz_date` and `parse_http_date` in
`src/utils/date.rs`.  Instants are seconds since the Unix epoch; civil-date
arithmetic uses the standard days-from-civil computation.  Name matching for
chrono's `%a`/`%A`/`%b` accepts the full or abbreviated English names in
canonical capitalisation. -/

/-- Parse exactly `n` ASCII digits into an accumulator. -/
def pDigits : Nat → Nat → List Char → Option (Nat × List Char)
  | 0, acc, xs => some (acc, xs)
  | _ + 1, _, [] => none
  | n + 1, acc, c :: rest =>
    if c.isDigit then pDigits n (acc * 10 + (c.toNat - 48)) rest else none

/-- Parse one or two ASCII digits (two when available). -/
def pDigits1or2 : List Char → Option (Nat × List Char)
  | [] => none
  | [c] => if c.isDigit then some (c.toNat - 48, []) else none
  | c1 :: c2 :: rest =>
    if c1.isDigit then
      if c2.isDigit then some ((c1.toNat - 48) * 10 + (c2.toNat - 48), rest)
      else some (c1.toNat - 48, c2 :: rest)
    else none

/-- Require a literal fragment and consume it. -/
def pLit (lit : List Char) (xs : List Char) : Option (List Char) :=
  if lit.isPrefixOf xs then some (xs.drop lit.length) else none

/-- First table entry whose name is a prefix of the input. -/
def pTable (table : List (List Char × Nat)) (xs : List Char) : Option (Nat × List Char) :=
  match table with
  | [] => none
  | (name, v) :: rest =>
    if name.isPrefixOf xs then some (v, xs.drop name.length) else pTable rest xs

/-- Weekday names, numbered 0 = Sunday, full names before abbreviations. -/
def weekdayTable : List (List Char × Nat) :=
  [("Sunday".toList, 0), ("Monday".toList, 1), ("Tuesday".toList, 2),
   ("Wednesday".toList, 3), ("Thursday".toList, 4), ("Friday".toList, 5),
   ("Saturday".toList, 6),
   ("Sun".toList, 0), ("Mon".toList, 1), ("Tue".toList, 2), ("Wed".toList, 3),
   ("Thu".toList, 4), ("Fri".toList, 5), ("Sat".toList, 6)]

/-- Month names, numbered from 1, full names before abbreviations. -/
def monthTable : List (List Char × Nat) :=
  [("January".toList, 1), ("February".toList, 2), ("March".toList, 3),
   ("April".toList, 4), ("May".toList, 5), ("June".toList, 6),
   ("July".toList, 7), ("August".toList, 8), ("September".toList, 9),
   ("October".toList, 10), ("November".toList, 11), ("December".toList, 12),
   ("Jan".toList, 1), ("Feb".toList, 2), ("Mar".toList, 3), ("Apr".toList, 4),
   ("Jun".toList, 6), ("Jul".toList, 7), ("Aug".toList, 8), ("Sep".toList, 9),
   ("Oct".toList, 10), ("Nov".toList, 11), ("Dec".toList, 12)]

def isLeapYear (y : Int) : Bool :=
  (y % 4 == 0 && y % 100 != 0) || y % 400 == 0

def daysInMonth (y : Int) (m : Nat) : Nat :=
  match m with
  | 1 => 31 | 2 => if isLeapYear y then 29 else 28 | 3 => 31 | 4 => 30
  | 5 => 31 | 6 => 30 | 7 => 31 | 8 => 31 | 9 => 30 | 10 => 31
  | 11 => 30 | 12 => 31 | _ => 0

/-- Days since 1970-01-01 of the civil date `y-m-d` (proleptic Gregorian). -/
def daysFromCivil (y : Int) (m d : Nat) : Int :=
  let y' : Int := if m ≤ 2 then y - 1 else y
  let era : Int := (if 0 ≤ y' then y' else y' - 399) / 400
  let yoe : Int := y' - era * 400
  let mp : Int := if 2 < m then (m : Int) - 3 else (m : Int) + 9
  let doy : Int := (153 * mp + 2) / 5 + (d : Int) - 1
  let doe : Int := yoe * 365 + yoe / 4 - yoe / 100 + doy
  era * 146097 + doe - 719468

/-- Weekday of a day count since the epoch, 0 = Sunday. -/
def weekdayFromDays (z : Int) : Nat :=
  ((z + 4).emod 7).toNat

def validDate (y : Int) (m d : Nat) : Bool :=
  1 ≤ m && m ≤ 12 && 1 ≤ d && d ≤ daysInMonth y m

def validTime (h mi sec : Nat) : Bool :=
  h < 24 && mi < 60 && sec < 60

/-- Epoch seconds of `y-m-d h:mi:sec` UTC. -/
def epochSeconds (y : Int) (m d h mi sec : Nat) : Int :=
  daysFromCivil y m d * 86400 + ((h * 3600 + mi * 60 + sec : Nat) : Int)

/-- Parse `%H:%M:%S`. -/
def pHms (xs : List Char) : Option ((Nat × Nat × Nat) × List Char) := do
  let (h, xs1) ← pDigits1or2 xs
  let xs2 ← pLit ":".toList xs1
  let (mi, xs3) ← pDigits1or2 xs2
  let xs4 ← pLit ":".toList xs3
  let (sec, xs5) ← pDigits1or2 xs4
  pure ((h, mi, sec), xs5)

/-- Finish a parsed date: the input must be consumed, the civil date and
time valid, and the named weekday must match the date (chrono validates a
parsed weekday against the parsed date). -/
def finishDate (wd : Nat) (y : Int) (m d h mi sec : Nat) (rest : List Char) :
    Option Int :=
  if rest = [] ∧ validDate y m d ∧ validTime h mi sec ∧
      weekdayFromDays (daysFromCivil y m d) = wd then
    some (epochSeconds y m d h mi sec)
  else none

/-- Translated from `parse_amz_date`: strip the `Z` suffix, then parse
`%Y%m%dT%H%M%S` and validate the civil date. -/
def parse_amz_date (value : List Char) : Option Int := do
  let body ← if value.getLast? = some 'Z' then some value.dropLast else none
  let (y, xs1) ← pDigits 4 0 body
  let (m, xs2) ← pDigits 2 0 xs1
  let (d, xs3) ← pDigits 2 0 xs2
  let xs4 ← pLit "T".toList xs3
  let (h, xs5) ← pDigits 2 0 xs4
  let (mi, xs6) ← pDigits 2 0 xs5
  let (sec, xs7) ← pDigits 2 0 xs6
  if xs7 = [] ∧ validDate (y : Int) m d ∧ validTime h mi sec then
    some (epochSeconds (y : Int) m d h mi sec)
  else none

/-- IMF-fixdate `%a, %d %b %Y %T GMT`. -/
def parse_imf_fixdate (value : List Char) : Option Int := do
  let (wd, xs1) ← pTable weekdayTable value
  let xs2 ← pLit ", ".toList xs1
  let (d, xs3) ← pDigits1or2 xs2
  let xs4 ← pLit " ".toList xs3
  let (m, xs5) ← pTable monthTable xs4
  let xs6 ← pLit " ".toList xs5
  let (y, xs7) ← pDigits 4 0 xs6
  let xs8 ← pLit " ".toList xs7
  let ((h, mi, sec), xs9) ← pHms xs8
  let xs10 ← pLit " GMT".toList xs9
  finishDate wd (y : Int) m d h mi sec xs10

/-- RFC850 `%A, %d-%b-%y %T GMT` with chrono's two-digit-year pivot
(00–68 ↦ 2000s, 69–99 ↦ 1900s). -/
def parse_rfc850_date (value : List Char) : Option Int := do
  let (wd, xs1) ← pTable weekdayTable value
  let xs2 ← pLit ", ".toList xs1
  let (d, xs3) ← pDigits1or2 xs2
  let xs4 ← pLit "-".toList xs3
  let (m, xs5) ← pTable monthTable xs4
  let xs6 ← pLit "-".toList xs5
  let (y2, xs7) ← pDigits 2 0 xs6
  let xs8 ← pLit " ".toList xs7
  let ((h, mi, sec), xs9) ← pHms xs8
  let xs10 ← pLit " GMT".toList xs9
  let y : Int := if y2 ≤ 68 then 2000 + (y2 : Int) else 1900 + (y2 : Int)
  finishDate wd y m d h mi sec xs10

/-- A space-padded day-of-month (`%e`): an optional leading space, then one
or two digits. -/
def pDayPadded : List Char → Option (Nat × List Char)
  | ' ' :: rest => pDigits1or2 rest
  | xs => pDigits1or2 xs

/-- asctime `%a %b %e %T %Y`. -/
def parse_asctime_date (value : List Char) : Option Int := do
  let (wd, xs1) ← pTable weekdayTable value
  let xs2 ← pLit " ".toList xs1
  let (m, xs3) ← pTable monthTable xs2
  let xs4 ← pLit " ".toList xs3
  let (d, xs5) ← pDayPadded xs4
  let xs6 ← pLit " ".toList xs5
  let ((h, mi, sec), xs7) ← pHms xs6
  let xs8 ← pLit " ".toList xs7
  let (y, xs9) ← pDigits 4 0 xs8
  finishDate wd (y : Int) m d h mi sec xs9

/-- Translated from `parse_http_date`: try IMF-fixdate, then RFC850, then
asctime. -/
def parse_http_date (value : List Char) : Option Int :=
  match parse_imf_fixdate value with
  | some t => some t
  | none =>
    match parse_rfc850_date value with
    | some t => some t
    | none => parse_asctime_date value

/-! ## AuthGate: the middleware decision pipeline

Translated from `AwsSigV4AuthMiddleware::call` in
`src/middleware/aws_sig_v4.rs`.  A header is absent, present but not valid
UTF-8, or a UTF-8 value.  The pipeline is modelled up to the point where the
request proceeds to body buffering and SigV4 signature recomputation (an
external library); every rejection before that point is captured. -/

/-- An HTTP header slot: missing, present with non-UTF-8 bytes, or a
UTF-8 value. -/
inductive Hdr where
  | absent
  | nonUtf8
  | val (s : List Char)
deriving DecidableEq, Repr

/-- The middleware inputs that drive the decision pipeline. -/
structure AuthRequest where
  authorization : Hdr
  xAmzDate : Hdr
  date : Hdr
deriving DecidableEq, Repr

/-- The middleware verdicts (error kinds), or `proceed` with the parsed
header for the downstream signature check. -/
inductive AuthDecision where
  | missingAuthenticationToken
  | invalidRequest
  | incompleteSignature
  | invalidClientTokenId
  | proceed (auth : AwsSigV4Auth)
deriving DecidableEq, Repr

/-- Extraction of one date header as in the middleware: absent is fine
(`None`), a non-UTF-8 or unparseable value is an immediate error. -/
def extractDate (parse : List Char → Option Int) : Hdr → Except Unit (Option Int)
  | .absent => .ok none
  | .nonUtf8 => .error ()
  | .val s =>
    match parse s with
    | some t => .ok (some t)
    | none => .error ()

/-- The tail of the pipeline once a timely date is resolved: parse the
Authorization value, check the `aws4_request` literal, check the access key
id, then proceed to signature verification. -/
def verify_auth_header (accessKeyId : List Char) (authorization : List Char) :
    AuthDecision :=
  match parse_auth_header authorization with
  | .error _ => .incompleteSignature
  | .ok auth =>
    if auth.signingScope.aws4Request ≠ "aws4_request".toList then
      .incompleteSignature
    else if auth.signingScope.accessKeyId ≠ accessKeyId then
      .invalidClientTokenId
    else
      .proceed auth

/-- `AwsSigV4AuthMiddleware::call` up to signature recomputation:
authorization presence and UTF-8, `x-amz-date` extraction, `Date`
extraction, date presence, the 5-minute clock-skew window, then the
Authorization header checks. -/
def authGate (now : Int) (accessKeyId : List Char) (req : AuthRequest) :
    AuthDecision :=
  match req.authorization with
  | .absent => .missingAuthenticationToken
  | .nonUtf8 => .invalidRequest
  | .val authorization =>
    match extractDate parse_amz_date req.xAmzDate with
    | .error _ => .invalidRequest
    | .ok amzDate =>
      match extractDate parse_http_date req.date with
      | .error _ => .invalidRequest
      | .ok httpDate =>
        match amzDate.or httpDate with
        | none => .invalidRequest
        | some t =>
          if 60 * 5 < (now - t).natAbs then .invalidRequest
          else verify_auth_header accessKeyId authorization

/-- The request time the middleware would resolve from the two date
headers, when it does not reject them: `x-amz-date` or else `Date`. -/
def resolvedTime (amzDate date : Hdr) : Option Int :=
  match extractDate parse_amz_date amzDate, extractDate parse_http_date date with
  | .ok a, .ok h => a.or h
  | _, _ => none

/-! ## GetRandomPassword

Translated from `get_random_password` in
`src/handlers/get_random_password.rs`.  Randomness is modelled by a stream
`g : Nat → Nat` with a draw counter: `choose` picks the element at index
`g k` modulo the slice length, and the library shuffle is modelled as the
index-driven permutation that repeatedly moves a drawn element to the
front. -/

def LOWERCASE : List Char := "abcdefghijklmnopqrstuvwxyz".toList
def UPPERCASE : List Char := "ABCDEFGHIJKLMNOPQRSTUVWXYZ".toList
def NUMBERS : List Char := "0123456789".toList

/-- The punctuation charset
(exclamation through tilde, the ASCII specials). -/
def PUNCTUATION : List Char :=
  ['!', '"', '#', '$', '%', '&', Char.ofNat 39, '(', ')', '*', '+', ',', '-',
   '.', '/', ':', ';', '<', '=', '>', '?', '@', '[', Char.ofNat 92, ']', '^',
   '_', Char.ofNat 96, Char.ofNat 123, '|', Char.ofNat 125, '~']

structure PasswordOptions where
  excludeCharacters : List Char
  excludeLowercase : Bool
  excludeNumbers : Bool
  excludePunctuation : Bool
  excludeUppercase : Bool
  includeSpace : Bool
  passwordLength : Nat
  requireEachIncludedType : Bool
deriving DecidableEq, Repr

inductive RandomPasswordError where
  | emptyCharSet
  | emptyTypeSet
  | invalidLength
deriving DecidableEq, Repr

/-- `filter_allowed`: the charset minus the user-excluded characters. -/
def filter_allowed (set excluded : List Char) : List Char :=
  set.filter (fun c => !(excluded.contains c))

/-- The per-class charsets that survive the exclusion flags, each filtered
by `exclude_characters` (the `type_sets` vector). -/
def typeSets (opts : PasswordOptions) : List (List Char) :=
  (if opts.excludeLowercase then [] else [filter_allowed LOWERCASE opts.excludeCharacters]) ++
  (if opts.excludeUppercase then [] else [filter_allowed UPPERCASE opts.excludeCharacters]) ++
  (if opts.excludeNumbers then [] else [filter_allowed NUMBERS opts.excludeCharacters]) ++
  (if opts.excludePunctuation then [] else [filter_allowed PUNCTUATION opts.excludeCharacters])

/-- All available characters: the type sets flattened, plus a space when
requested and not excluded. -/
def allowedChars (opts : PasswordOptions) : List Char :=
  let base := (typeSets opts).flatten
  if opts.includeSpace ∧ ¬ opts.excludeCharacters.contains ' ' then
    base ++ [' ']
  else base

/-- `SliceRandom::choose` driven by the stream: `none` on an empty slice,
else the element at the drawn index and the advanced counter. -/
def chooseFrom (g : Nat → Nat) (k : Nat) (xs : List Char) : Option (Char × Nat) :=
  match xs with
  | [] => none
  | _ :: _ => some (xs.getD (g k % xs.length) ' ', k + 1)

/-- One random element from each type set (required-type mode); an empty
set is the `EmptyTypeSet` error. -/
def pickEach (g : Nat → Nat) : List (List Char) → Nat →
    Except RandomPasswordError (List Char × Nat)
  | [], k => .ok ([], k)
  | set :: rest, k =>
    match chooseFrom g k set with
    | none => .error .emptyTypeSet
    | some (c, k1) =>
      match pickEach g rest k1 with
      | .error e => .error e
      | .ok (cs, k2) => .ok (c :: cs, k2)

/-- `n` random elements of the full alphabet (the fill loop). -/
def fillChars (g : Nat → Nat) (allowed : List Char) : Nat → Nat →
    Except RandomPasswordError (List Char × Nat)
  | 0, k => .ok ([], k)
  | n + 1, k =>
    match chooseFrom g k allowed with
    | none => .error .emptyCharSet
    | some (c, k1) =>
      match fillChars g allowed n k1 with
      | .error e => .error e
      | .ok (cs, k2) => .ok (c :: cs, k2)

/-- The shuffle loop, structurally recursive on a fuel that starts at the
list length: draw an index, move that element to the front, recurse on the
remainder. -/
def shuffleGo (g : Nat → Nat) : Nat → Nat → List Char → List Char
  | 0, _, _ => []
  | n + 1, k, xs =>
    match xs with
    | [] => []
    | _ :: _ =>
      let j := g k % xs.length
      xs.getD j ' ' :: shuffleGo g n (k + 1) (xs.eraseIdx j)

/-- The shuffle, modelled as the index-driven permutation the library
shuffle draws. -/
def shuffleChars (g : Nat → Nat) (k : Nat) (xs : List Char) : List Char :=
  shuffleGo g xs.length k xs

/-- Translated from `get_random_password`: build the type sets and the
alphabet, reject an empty alphabet, then either place one character of each
type, fill up to the length and shuffle (required-type mode), or sample the
length directly. -/
def get_random_password (g : Nat → Nat) (opts : PasswordOptions) :
    Except RandomPasswordError (List Char) :=
  let sets := typeSets opts
  let allowed := allowedChars opts
  if allowed.isEmpty then .error .emptyCharSet
  else if opts.requireEachIncludedType then
    if opts.passwordLength < sets.length then .error .invalidLength
    else
      match pickEach g sets 0 with
      | .error e => .error e
      | .ok (picks, k1) =>
        match fillChars g allowed (opts.passwordLength - picks.length) k1 with
        | .error e => .error e
        | .ok (fills, k2) => .ok (shuffleChars g k2 (picks ++ fills))
  else
    match fillChars g allowed opts.passwordLength 0 with
    | .error e => .error e
    | .ok (cs, _) => .ok cs

/-! ## Concrete instances used by witnesses and counterexamples -/

/-- A store with one live secret `n` whose single version `v1` holds
`AWSCURRENT`. -/
def storeBase : Store :=
  ⟨[⟨"A", "n", none, 0, none, none⟩],
   [⟨"A", "v1", some "s", none, 0, none⟩],
   [⟨"A", "v1", "AWSCURRENT"⟩], []⟩

/-- `storeBase` with the deletion already scheduled for instant 99. -/
def storeScheduled : Store :=
  ⟨[⟨"A", "n", none, 0, some 99, none⟩],
   [⟨"A", "v1", some "s", none, 0, none⟩],
   [⟨"A", "v1", "AWSCURRENT"⟩], []⟩

/-- The stage rows of one secret carrying one label. -/
def stagesOf (l : List Stage) (arn label : String) : List Stage :=
  l.filter (fun st => st.secretArn == arn && st.label == label)

/-- The store produced by the C2 counterexample put. -/
def storeAfterPutPrev : Store :=
  ⟨[⟨"A", "n", none, 0, none, none⟩],
   [⟨"A", "v2", some "s2", none, 10, none⟩, ⟨"A", "v1", some "s", none, 0, none⟩],
   [⟨"A", "v2", "AWSPREVIOUS"⟩, ⟨"A", "v2", "AWSCURRENT"⟩], []⟩

/-- A store in which the label `STAGEX` sits on two versions at once, so
that removing it from `v1` still leaves a holder blocking a move to `v3`. -/
def storeTwoHolders : Store :=
  ⟨[⟨"A", "n", none, 0, none, none⟩],
   [⟨"A", "v1", some "s", none, 0, none⟩, ⟨"A", "v2", some "t", none, 1, none⟩,
    ⟨"A", "v3", some "u", none, 2, none⟩],
   [⟨"A", "v1", "AWSCURRENT"⟩, ⟨"A", "v1", "STAGEX"⟩, ⟨"A", "v2", "STAGEX"⟩], []⟩

/-- A well-formed Authorization header for access key `TEST`. -/
def authHeaderOk : List Char :=
  ("AWS4-HMAC-SHA256 Credential=TEST/19941106/us-east-1/secretsmanager/aws4_request, " ++
   "SignedHeaders=host, Signature=abc").toList

/-- A credential scope with six slash-separated parts. -/
def credSix : List Char :=
  "TEST/19941106/us-east-1/secretsmanager/aws4_request/extra".toList

/-- An Authorization header whose credential scope has six parts. -/
def authHeaderSix : List Char :=
  ("AWS4-HMAC-SHA256 Credential=TEST/19941106/us-east-1/secretsmanager/aws4_request/extra, " ++
   "SignedHeaders=host, Signature=abc").toList

/-- A compact ISO8601 `x-amz-date` value, epoch second 784111777. -/
def amzDateOk : List Char := "19941106T084937Z".toList

/-- An IMF-fixdate `Date` value, epoch second 784111777. -/
def imfDateOk : List Char := "Sun, 06 Nov 1994 08:49:37 GMT".toList

/-- All four classes included, no exclusions, required-type mode, length 5. -/
def optsC8 : PasswordOptions :=
  ⟨[], false, false, false, false, false, 5, true⟩

/-! ## Theorems -/

/-- C9: for a secret whose `scheduled_delete_at` is already set, DeleteSecret
returns the existing scheduled deletion date and leaves the store (secret,
versions, stages and tags) unchanged — for every value of the force flag and
of the recovery window, because the already-scheduled check precedes both
branches. -/
theorem deleteSecret_already_scheduled_frame
    (s : Store) (secretId : String) (force : Bool) (days now d : Int)
    (sec : SecretWithVersion)
    (hres : get_secret_latest_version s secretId = some sec)
    (hsched : sec.scheduledDeleteAt = some d) :
    deleteSecretHandler secretId force days now s = .ok (⟨sec.arn, sec.name, d⟩, s) := by
  simp only [deleteSecretHandler, hres, hsched]

/-- Witness for C9: forced delete with a different window on an
already-scheduled secret returns the old date and the unchanged store. -/
theorem deleteSecret_already_scheduled_frame_witness :
    deleteSecretHandler "n" true 7 50 storeScheduled =
      .ok (⟨"A", "n", 99⟩, storeScheduled) :=
  deleteSecret_already_scheduled_frame storeScheduled "n" true 7 50 99
    ⟨"A", "n", none, 0, some 99, "v1", some "s", none, 0, ["AWSCURRENT"]⟩
    (by decide) rfl

/-- C3 counterexample: an Authorization header that is valid UTF-8 but names
the wrong algorithm, on a request with no date headers, is rejected with
InvalidRequest — not IncompleteSignature as the claim requires. -/
theorem malformed_header_without_dates_invalid_request :
    parse_auth_header "Basic abc".toList = .error .unsupportedAlgorithm ∧
    authGate 0 "TEST".toList ⟨.val "Basic abc".toList, .absent, .absent⟩ =
      .invalidRequest := by
  constructor
  · rfl
  · rfl

/-- C3 (amended): for a request whose Authorization header is present as
valid UTF-8 but malformed per step 2, the gate rejects with
IncompleteSignature exactly when the date headers resolve to a time within
the 5-minute window; when the dates fail to resolve, or resolve outside the
window, it rejects with InvalidRequest instead, because time resolution and
the skew check precede header parsing. -/
theorem authGate_malformed_header_date_precedence
    (now : Int) (key a : List Char) (amz date : Hdr) (e : AuthHeaderError)
    (hmal : parse_auth_header a = .error e) :
    (∀ t : Int, resolvedTime amz date = some t → (now - t).natAbs ≤ 300 →
       authGate now key ⟨.val a, amz, date⟩ = .incompleteSignature) ∧
    (resolvedTime amz date = none →
       authGate now key ⟨.val a, amz, date⟩ = .invalidRequest) ∧
    (∀ t : Int, resolvedTime amz date = some t → 300 < (now - t).natAbs →
       authGate now key ⟨.val a, amz, date⟩ = .invalidRequest) := by
  refine ⟨?_, ?_, ?_⟩
  · intro t hres hskew
    unfold resolvedTime at hres
    unfold authGate
    cases hamz : extractDate parse_amz_date amz with
    | error u => (rw [hamz] at hres) <;> simp at hres
    | ok ad =>
      cases hdate : extractDate parse_http_date date with
      | error u => (rw [hamz, hdate] at hres) <;> simp at hres
      | ok hd =>
        rw [hamz, hdate] at hres
        have hor : ad.or hd = some t := hres
        simp only [hamz, hdate, hor]
        rw [if_neg (by omega)]
        unfold verify_auth_header
        rw [hmal]
  · intro hres
    unfold resolvedTime at hres
    unfold authGate
    cases hamz : extractDate parse_amz_date amz with
    | error u => simp only [hamz]
    | ok ad =>
      cases hdate : extractDate parse_http_date date with
      | error u => simp only [hamz, hdate]
      | ok hd =>
        rw [hamz, hdate] at hres
        have hor : ad.or hd = none := hres
        simp only [hamz, hdate, hor]
  · intro t hres hskew
    unfold resolvedTime at hres
    unfold authGate
    cases hamz : extractDate parse_amz_date amz with
    | error u => (rw [hamz] at hres) <;> simp at hres
    | ok ad =>
      cases hdate : extractDate parse_http_date date with
      | error u => (rw [hamz, hdate] at hres) <;> simp at hres
      | ok hd =>
        rw [hamz, hdate] at hres
        have hor : ad.or hd = some t := hres
        simp only [hamz, hdate, hor]
        rw [if_pos (by omega)]

/-- Witness for C3 (amended): the same malformed header gets
IncompleteSignature when a timely `x-amz-date` is present, InvalidRequest
when no date header is present, and InvalidRequest when the date is stale. -/
theorem authGate_malformed_header_date_precedence_witness :
    authGate 784111777 "TEST".toList
      ⟨.val "Basic abc".toList, .val amzDateOk, .absent⟩ = .incompleteSignature ∧
    authGate 784111777 "TEST".toList
      ⟨.val "Basic abc".toList, .absent, .absent⟩ = .invalidRequest ∧
    authGate 0 "TEST".toList
      ⟨.val "Basic abc".toList, .val amzDateOk, .absent⟩ = .invalidRequest :=
  ⟨(authGate_malformed_header_date_precedence 784111777 "TEST".toList
      "Basic abc".toList (.val amzDateOk) .absent .unsupportedAlgorithm rfl).1
      784111777 (by decide) (by decide),
   (authGate_malformed_header_date_precedence 784111777 "TEST".toList
      "Basic abc".toList .absent .absent .unsupportedAlgorithm rfl).2.1 (by decide),
   (authGate_malformed_header_date_precedence 0 "TEST".toList
      "Basic abc".toList (.val amzDateOk) .absent .unsupportedAlgorithm rfl).2.2
      784111777 (by decide) (by decide)⟩

/-- C4 counterexample: a credential scope with six slash-separated parts
whose fifth part is `aws4_request` is not rejected with IncompleteSignature;
the whole request proceeds past the header checks. -/
theorem six_part_credential_not_incomplete_signature :
    (splitChar '/' credSix).length = 6 ∧
    authGate 784111777 "TEST".toList
      ⟨.val authHeaderSix, .val amzDateOk, .absent⟩ ≠ .incompleteSignature := by
  constructor
  · rfl
  · decide

/-- C4 (amended): parsing the Credential value succeeds whenever it splits
on the slash into five or more parts — the first five become
access_key_id/date/region/service/aws4_request and any further parts are
ignored — and fails (leading the gate to IncompleteSignature) only when
there are fewer than five parts. -/
theorem parse_signing_scope_first_five (cred : List Char) :
    (∀ (a b c d e : List Char) (rest : List (List Char)),
       splitChar '/' cred = a :: b :: c :: d :: e :: rest →
       parse_signing_scope cred = some ⟨a, b, c, d, e⟩) ∧
    ((splitChar '/' cred).length < 5 → parse_signing_scope cred = none) := by
  constructor
  · intro a b c d e rest h
    simp only [parse_signing_scope, h]
  · intro h
    rcases hl : splitChar '/' cred with _ | ⟨a, _ | ⟨b, _ | ⟨c, _ | ⟨d, _ | ⟨e, rest⟩⟩⟩⟩⟩
    · simp only [parse_signing_scope, hl]
    · simp only [parse_signing_scope, hl]
    · simp only [parse_signing_scope, hl]
    · simp only [parse_signing_scope, hl]
    · simp only [parse_signing_scope, hl]
    · exfalso
      rw [hl] at h
      simp at h
      omega

/-- Witness for C4 (amended): the six-part credential parses to its first
five parts; a two-part credential does not parse. -/
theorem parse_signing_scope_first_five_witness :
    parse_signing_scope credSix =
      some ⟨"TEST".toList, "19941106".toList, "us-east-1".toList,
            "secretsmanager".toList, "aws4_request".toList⟩ ∧
    parse_signing_scope "a/b".toList = none :=
  ⟨(parse_signing_scope_first_five credSix).1 "TEST".toList "19941106".toList
      "us-east-1".toList "secretsmanager".toList "aws4_request".toList
      ["extra".toList] (by decide),
   (parse_signing_scope_first_five "a/b".toList).2 (by decide)⟩

/-- C5 counterexample: with an unparseable `x-amz-date` and a Date header
that parses under IMF-fixdate to the server time, the gate rejects with
InvalidRequest instead of resolving the time from the Date header. -/
theorem unparseable_amz_date_rejects_despite_valid_date :
    parse_amz_date "garbage".toList = none ∧
    parse_http_date imfDateOk = some 784111777 ∧
    authGate 784111777 "TEST".toList
      ⟨.val authHeaderOk, .val "garbage".toList, .val imfDateOk⟩ =
      .invalidRequest := by
  refine ⟨rfl, by decide, rfl⟩

/-- C5 (amended): the fallback to the `Date` header happens only when
`x-amz-date` is absent: a present-but-unparseable `x-amz-date` is rejected
with InvalidRequest no matter what the `Date` header holds, and with
`x-amz-date` absent a parseable timely `Date` header drives the gate into
the Authorization header checks. -/
theorem amz_date_fallback_only_when_absent :
    (∀ (now : Int) (key a s : List Char) (d : Hdr),
       parse_amz_date s = none →
       authGate now key ⟨.val a, .val s, d⟩ = .invalidRequest) ∧
    (∀ (now : Int) (key a ds : List Char) (t : Int),
       parse_http_date ds = some t → (now - t).natAbs ≤ 300 →
       authGate now key ⟨.val a, .absent, .val ds⟩ = verify_auth_header key a) := by
  constructor
  · intro now key a s d h
    simp only [authGate, extractDate, h]
  · intro now key a ds t h hskew
    simp only [authGate, extractDate, h, Option.none_or]
    rw [if_neg (by omega)]

/-- A found secret row is a member matching the ARN-or-name predicate. -/
theorem findSecret_spec {s : Store} {sid : String} {x : Secret}
    (h : findSecret s sid = some x) :
    x ∈ s.secrets ∧ (x.arn = sid ∨ x.name = sid) := by
  unfold findSecret at h
  refine ⟨List.mem_of_find?_eq_some h, ?_⟩
  have := List.find?_some h
  simpa using this

/-- A found version row is a member with the requested key. -/
theorem findVersion_spec {s : Store} {arn vid : String} {v : Version}
    (h : findVersion s arn vid = some v) :
    v ∈ s.versions ∧ v.secretArn = arn ∧ v.versionId = vid := by
  unfold findVersion at h
  refine ⟨List.mem_of_find?_eq_some h, ?_⟩
  have := List.find?_some h
  simpa using this

/-- A found stage row is a member with the requested secret and label. -/
theorem findStageByLabel_spec {s : Store} {arn label : String} {st : Stage}
    (h : findStageByLabel s arn label = some st) :
    st ∈ s.stages ∧ st.secretArn = arn ∧ st.label = label := by
  unfold findStageByLabel at h
  refine ⟨List.mem_of_find?_eq_some h, ?_⟩
  have := List.find?_some h
  simpa using this

/-- Decomposition of a successful by-version-id lookup. -/
theorem get_secret_by_version_id_decomp {s : Store} {sid vid : String}
    {sec : SecretWithVersion} (h : get_secret_by_version_id s sid vid = some sec) :
    ∃ x v, findSecret s sid = some x ∧ findVersion s x.arn vid = some v ∧
      sec = joinedRow s x v := by
  unfold get_secret_by_version_id at h
  simp only [Option.bind_eq_bind, Option.bind_eq_some, Option.pure_def,
    Option.some.injEq] at h
  obtain ⟨x, hx, v, hv, hj⟩ := h
  exact ⟨x, v, hx, hv, hj.symm⟩

/-- Decomposition of a successful latest-version (`AWSCURRENT`) lookup. -/
theorem get_secret_latest_version_decomp {s : Store} {sid : String}
    {sec : SecretWithVersion} (h : get_secret_latest_version s sid = some sec) :
    ∃ x st v, findSecret s sid = some x ∧
      findStageByLabel s x.arn "AWSCURRENT" = some st ∧
      findVersion s x.arn st.versionId = some v ∧ sec = joinedRow s x v := by
  unfold get_secret_latest_version at h
  simp only [Option.bind_eq_bind, Option.bind_eq_some, Option.pure_def,
    Option.some.injEq] at h
  obtain ⟨x, hx, st, hst, v, hv, hj⟩ := h
  exact ⟨x, st, v, hx, hst, hv, hj.symm⟩

/-- Decomposition of a successful by-stage lookup. -/
theorem get_secret_by_version_stage_decomp {s : Store} {sid label : String}
    {sec : SecretWithVersion} (h : get_secret_by_version_stage s sid label = some sec) :
    ∃ x st v, findSecret s sid = some x ∧
      findStageByLabel s x.arn label = some st ∧
      findVersion s x.arn st.versionId = some v ∧ sec = joinedRow s x v := by
  unfold get_secret_by_version_stage at h
  simp only [Option.bind_eq_bind, Option.bind_eq_some, Option.pure_def,
    Option.some.injEq] at h
  obtain ⟨x, hx, st, hst, v, hv, hj⟩ := h
  exact ⟨x, st, v, hx, hst, hv, hj.symm⟩

/-- Decomposition of a successful by-stage-and-id lookup. -/
theorem get_secret_by_version_stage_and_id_decomp {s : Store}
    {sid vid label : String} {sec : SecretWithVersion}
    (h : get_secret_by_version_stage_and_id s sid vid label = some sec) :
    ∃ x st v, findSecret s sid = some x ∧
      s.stages.find?
        (fun st => st.secretArn == x.arn && st.versionId == vid && st.label == label) =
        some st ∧
      findVersion s x.arn vid = some v ∧ sec = joinedRow s x v := by
  unfold get_secret_by_version_stage_and_id at h
  simp only [Option.bind_eq_bind, Option.bind_eq_some, Option.pure_def,
    Option.some.injEq] at h
  obtain ⟨x, hx, st, hst, v, hv, hj⟩ := h
  exact ⟨x, st, v, hx, hst, hv, hj.symm⟩

/-- C6: GetSecretValue resolves its version by the selector precedence —
both selectors row-matched together, version id alone, version stage alone,
or the `AWSCURRENT` holder when no selector is given — it fails with
ResourceNotFoundException exactly when the chosen lookup finds no version,
and on a live secret it answers with the resolved version. -/
theorem getSecretValue_resolution (s : Store) (sid : String)
    (ivid ivs : Option String) (today : Int) :
    ((getSecretValueHandler sid ivid ivs today s = .error .resourceNotFoundException) ↔
       resolveVersion s sid ivid ivs = none) ∧
    (∀ sec, resolveVersion s sid ivid ivs = some sec →
       (∀ i, ivid = some i → sec.versionId = i) ∧
       (∀ l, ivs = some l → Stage.mk sec.arn sec.versionId l ∈ s.stages) ∧
       (ivid = none → ivs = none →
          Stage.mk sec.arn sec.versionId "AWSCURRENT" ∈ s.stages) ∧
       (sec.scheduledDeleteAt = none →
          getSecretValueHandler sid ivid ivs today s =
            .ok (⟨sec.arn,
                  (if ivid.isSome then sec.versionCreatedAt else sec.createdAt),
                  sec.name, sec.secretString, sec.secretBinary, sec.versionId,
                  sec.versionStages⟩,
                 update_secret_version_last_accessed s sec.arn sec.versionId today))) := by
  constructor
  · cases hres : resolveVersion s sid ivid ivs with
    | none => simp [getSecretValueHandler, hres]
    | some sec =>
      simp only [getSecretValueHandler, hres]
      constructor
      · intro h
        by_cases hs : sec.scheduledDeleteAt.isSome <;> simp [hs] at h
      · intro h
        exact absurd h (by simp)
  · intro sec hres
    refine ⟨?_, ?_, ?_, ?_⟩
    · intro i hi
      subst hi
      cases ivs with
      | none =>
        obtain ⟨x, v, hx, hv, hj⟩ := get_secret_by_version_id_decomp hres
        subst hj
        exact (findVersion_spec hv).2.2
      | some l =>
        obtain ⟨x, st, v, hx, hst, hv, hj⟩ :=
          get_secret_by_version_stage_and_id_decomp hres
        subst hj
        exact (findVersion_spec hv).2.2
    · intro l hl
      subst hl
      cases ivid with
      | none =>
        obtain ⟨x, st, v, hx, hst, hv, hj⟩ := get_secret_by_version_stage_decomp hres
        subst hj
        obtain ⟨hmem, harn, hlabel⟩ := findStageByLabel_spec hst
        obtain ⟨-, hva, hvv⟩ := findVersion_spec hv
        have : Stage.mk (joinedRow s x v).arn (joinedRow s x v).versionId l = st := by
          cases st
          simp_all [joinedRow]
        rw [this]
        exact hmem
      | some i =>
        obtain ⟨x, st, v, hx, hst, hv, hj⟩ :=
          get_secret_by_version_stage_and_id_decomp hres
        subst hj
        have hmem := List.mem_of_find?_eq_some hst
        have hp := List.find?_some hst
        simp only [Bool.and_eq_true, beq_iff_eq] at hp
        obtain ⟨-, hva, hvv⟩ := findVersion_spec hv
        have : Stage.mk (joinedRow s x v).arn (joinedRow s x v).versionId l = st := by
          cases st
          simp_all [joinedRow]
        rw [this]
        exact hmem
    · intro h1 h2
      subst h1; subst h2
      obtain ⟨x, st, v, hx, hst, hv, hj⟩ := get_secret_latest_version_decomp hres
      subst hj
      obtain ⟨hmem, harn, hlabel⟩ := findStageByLabel_spec hst
      obtain ⟨-, hva, hvv⟩ := findVersion_spec hv
      have : Stage.mk (joinedRow s x v).arn (joinedRow s x v).versionId "AWSCURRENT"
          = st := by
        cases st
        simp_all [joinedRow]
      rw [this]
      exact hmem
    · intro hsched
      simp [getSecretValueHandler, hres, hsched]

/-- Witness for C6: on the base store, the selector-free request resolves
the `AWSCURRENT` holder `v1` and succeeds; membership of the current stage
row is produced by the theorem. -/
theorem getSecretValue_resolution_witness :
    Stage.mk "A" "v1" "AWSCURRENT" ∈ storeBase.stages ∧
    getSecretValueHandler "n" none none 5 storeBase =
      .ok (⟨"A", 0, "n", some "s", none, "v1", ["AWSCURRENT"]⟩,
           update_secret_version_last_accessed storeBase "A" "v1" 5) :=
  ⟨((getSecretValue_resolution storeBase "n" none none 5).2
      ⟨"A", "n", none, 0, none, "v1", some "s", none, 0, ["AWSCURRENT"]⟩
      (by decide)).2.2.1 rfl rfl,
   ((getSecretValue_resolution storeBase "n" none none 5).2
      ⟨"A", "n", none, 0, none, "v1", some "s", none, 0, ["AWSCURRENT"]⟩
      (by decide)).2.2.2 rfl⟩

/-- C1: whenever CreateSecret or PutSecretValue hits a uniqueness violation
and the version stored under the client request token exists, the operation
succeeds with the originally stored ARN and version id exactly when the
stored version's `secret_string` and `secret_binary` equal the incoming
payload, and fails with ResourceExistsException otherwise. -/
theorem create_put_idempotent_replay :
    (∀ (s : Store) (arn name vid : String) (desc ss : Option String)
       (sb : Option (List Nat)) (tags : List (String × String)) (now : Int)
       (sec : SecretWithVersion),
       ¬(ss.isSome ∧ sb.isSome) → ¬(ss.isNone ∧ sb.isNone) →
       (∃ x ∈ s.secrets, x.name = name ∨ x.arn = arn) →
       get_secret_by_version_id s name vid = some sec →
       (createSecretHandler arn name vid desc ss sb tags now s).1 =
         (if sec.secretString = ss ∧ sec.secretBinary = sb
          then .ok ⟨sec.arn, name, vid⟩
          else .error .resourceExistsException)) ∧
    (∀ (s : Store) (sid vid : String) (ss : Option String) (sb : Option (List Nat))
       (vsReq : Option (List String)) (now : Int) (secret sec : SecretWithVersion),
       ¬(ss.isSome ∧ sb.isSome) → ¬(ss.isNone ∧ sb.isNone) →
       vsReq ≠ some [] →
       get_secret_latest_version s sid = some secret →
       (∃ v ∈ s.versions, v.secretArn = secret.arn ∧ v.versionId = vid) →
       get_secret_by_version_id s secret.arn vid = some sec →
       putSecretValueHandler sid vid ss sb vsReq now s =
         (if sec.secretString = ss ∧ sec.secretBinary = sb
          then .ok (⟨sec.arn, sec.name, sec.versionId, sec.versionStages⟩, s)
          else .error .resourceExistsException)) := by
  constructor
  · intro s arn name vid desc ss sb tags now sec h1 h2 hcol hrep
    have hc : (s.secrets.any (fun x => x.name == name || x.arn == arn)) = true := by
      rw [List.any_eq_true]
      obtain ⟨x, hx, hor⟩ := hcol
      refine ⟨x, hx, ?_⟩
      cases hor with
      | inl h => simp [h]
      | inr h => simp [h]
    have hcs : create_secret s arn name desc now = .error .uniqueViolation := by
      unfold create_secret
      rw [if_pos hc]
    have h2' : ¬(ss = none ∧ sb = none) := by simpa using h2
    by_cases heq : sec.secretString = ss ∧ sec.secretBinary = sb
    · have hcond : ¬(sec.secretString ≠ ss ∨ sec.secretBinary ≠ sb) := by
        push_neg
        exact heq
      simp [createSecretHandler, transaction, createSecretBody, h1, h2, h2', hcs,
        hrep, hcond, heq]
    · have hcond : sec.secretString ≠ ss ∨ sec.secretBinary ≠ sb := by
        by_contra hcon
        push_neg at hcon
        exact heq ⟨hcon.1, hcon.2⟩
      simp [createSecretHandler, transaction, createSecretBody, h1, h2, h2', hcs,
        hrep, if_pos hcond, heq]
  · intro s sid vid ss sb vsReq now secret sec h1 h2 hvs hres hdup hrep
    have hc : (s.versions.any
        (fun v => v.secretArn == secret.arn && v.versionId == vid)) = true := by
      rw [List.any_eq_true]
      obtain ⟨v, hv, ha, hb⟩ := hdup
      exact ⟨v, hv, by simp [ha, hb]⟩
    have hcv : create_secret_version s secret.arn vid ss sb now =
        .error .uniqueViolation := by
      unfold create_secret_version
      rw [if_pos hc]
    have key : ∀ vsx : List String,
        putSecretValueResolved sid vid ss sb vsx now s =
          (if sec.secretString = ss ∧ sec.secretBinary = sb
           then .ok (⟨sec.arn, sec.name, sec.versionId, sec.versionStages⟩, s)
           else .error .resourceExistsException) := by
      intro vsx
      have h2' : ¬(ss = none ∧ sb = none) := by simpa using h2
      by_cases heq : sec.secretString = ss ∧ sec.secretBinary = sb
      · have hcond : ¬(sec.secretString ≠ ss ∨ sec.secretBinary ≠ sb) := by
          push_neg
          exact heq
        simp [putSecretValueResolved, h1, h2, h2', hres, hcv, hrep, hcond, heq]
      · have hcond : sec.secretString ≠ ss ∨ sec.secretBinary ≠ sb := by
          by_contra hcon
          push_neg at hcon
          exact heq ⟨hcon.1, hcon.2⟩
        simp [putSecretValueResolved, h1, h2, h2', hres, hcv, hrep, if_pos hcond,
          heq]
    cases vsReq with
    | none =>
      simp only [putSecretValueHandler]
      exact key _
    | some v =>
      have hv : ¬(v = []) := by
        intro h
        exact hvs (by rw [h])
      simp only [putSecretValueHandler]
      rw [if_neg hv]
      exact key _

/-- Witness for C1: replaying CreateSecret for the existing name `n` with
token `v1` and the identical payload returns the stored ARN `A`; replaying
PutSecretValue with token `v1` and a different payload fails with
ResourceExistsException. -/
theorem create_put_idempotent_replay_witness :
    (createSecretHandler "arnNew" "n" "v1" none (some "s") none [] 10 storeBase).1 =
      .ok ⟨"A", "n", "v1"⟩ ∧
    putSecretValueHandler "n" "v1" (some "different") none none 10 storeBase =
      .error .resourceExistsException := by
  constructor
  · have h := create_put_idempotent_replay.1 storeBase "arnNew" "n" "v1" none
      (some "s") none [] 10
      ⟨"A", "n", none, 0, none, "v1", some "s", none, 0, ["AWSCURRENT"]⟩
      (by simp) (by simp) ⟨⟨"A", "n", none, 0, none, none⟩, by decide, by decide⟩
      (by decide)
    simpa using h
  · have h := create_put_idempotent_replay.2 storeBase "n" "v1" (some "different")
      none none 10
      ⟨"A", "n", none, 0, none, "v1", some "s", none, 0, ["AWSCURRENT"]⟩
      ⟨"A", "n", none, 0, none, "v1", some "s", none, 0, ["AWSCURRENT"]⟩
      (by simp) (by simp) (by simp) (by decide)
      ⟨⟨"A", "v1", some "s", none, 0, none⟩, by decide, by decide, by decide⟩
      (by decide)
    simpa using h

/-- C10: UpdateSecretVersionStage is atomic on error — every error result
leaves the store exactly as it was — and in particular, when the stage
removal from `remove_from_version_id` succeeds but attaching the stage to
`move_to_version_id` hits the (secret, stage) uniqueness constraint, the
call returns InvalidRequestException with the stage assignments untouched. -/
theorem updateStage_atomic_on_conflict :
    (∀ (s : Store) (sid stage : String) (moveTo removeFrom : Option String)
       (e : AwsError),
       (updateSecretVersionStageHandler sid stage moveTo removeFrom s).1 = .error e →
       (updateSecretVersionStageHandler sid stage moveTo removeFrom s).2 = s) ∧
    (∀ (s : Store) (sid stage src dest : String) (secret : SecretWithVersion),
       get_secret_latest_version s sid = some secret →
       stage ≠ "AWSCURRENT" →
       Stage.mk secret.arn src stage ∈ s.stages →
       (∃ st ∈ s.stages, st.secretArn = secret.arn ∧ st.label = stage ∧
          st.versionId ≠ src) →
       updateSecretVersionStageHandler sid stage (some dest) (some src) s =
         (.error .invalidRequestException, s)) := by
  constructor
  · intro s sid stage moveTo removeFrom e h
    unfold updateSecretVersionStageHandler transaction at h ⊢
    cases hres : get_secret_latest_version s sid with
    | none => simp [hres]
    | some secret =>
      simp only [hres] at h ⊢
      cases hb : updateStageBody secret stage moveTo removeFrom s with
      | mk r s' =>
        rw [hb] at h
        cases r with
        | ok v => simp at h
        | error e' => simp
  · intro s sid stage src dest secret hres hstage hmem hother
    have hn : ¬(s.stages.countP
        (fun st => st.secretArn == secret.arn && st.versionId == src &&
          st.label == stage) < 1) := by
      have : 0 < s.stages.countP
          (fun st => st.secretArn == secret.arn && st.versionId == src &&
            st.label == stage) := by
        rw [List.countP_pos_iff]
        exact ⟨_, hmem, by simp⟩
      omega
    have hadd : ((s.stages.filter
        (fun st => !(st.secretArn == secret.arn && st.versionId == src &&
          st.label == stage))).any
        (fun st => st.secretArn == secret.arn && st.label == stage)) = true := by
      rw [List.any_eq_true]
      obtain ⟨st, hstm, h1, h2, h3⟩ := hother
      refine ⟨st, ?_, by simp [h1, h2]⟩
      rw [List.mem_filter]
      exact ⟨hstm, by simp [h1, h2, h3]⟩
    have hbody : updateStageBody secret stage (some dest) (some src) s =
        (.error .invalidRequestException,
         ⟨s.secrets, s.versions,
          s.stages.filter (fun st => !(st.secretArn == secret.arn &&
            st.versionId == src && st.label == stage)), s.tags⟩) := by
      simp only [updateStageBody, remove_secret_version_stage,
        updateStagePromote, updateStageMove, add_secret_version_stage]
      split
      · exact absurd (by assumption) hn
      · split
        · exact absurd (And.left (by assumption)) hstage
        · split <;> simp_all
    simp only [updateSecretVersionStageHandler, hres, transaction, hbody]

/-- Witness for C10: on the two-holder store, moving `STAGEX` to `v3` while
removing it from `v1` leaves `v2` blocking the attach; the call fails with
InvalidRequestException and the whole store — removal included — is rolled
back. -/
theorem updateStage_atomic_on_conflict_witness :
    updateSecretVersionStageHandler "n" "STAGEX" (some "v3") (some "v1")
      storeTwoHolders = (.error .invalidRequestException, storeTwoHolders) :=
  updateStage_atomic_on_conflict.2 storeTwoHolders "n" "STAGEX" "v1" "v3"
    ⟨"A", "n", none, 0, none, "v1", some "s", none, 0, ["AWSCURRENT", "STAGEX"]⟩
    (by decide) (by decide) (by decide)
    ⟨⟨"A", "v2", "STAGEX"⟩, by decide⟩

/-- A `find?` over a mapped list whose predicate result the map preserves. -/
theorem find?_map_invariant {α : Type} (l : List α) (p : α → Bool) (f : α → α)
    (hp : ∀ x, p (f x) = p x) : (l.map f).find? p = (l.find? p).map f := by
  induction l with
  | nil => rfl
  | cons x xs ih =>
    simp only [List.map_cons]
    cases hpx : p x with
    | true =>
      rw [List.find?_cons_of_pos _ (by rw [hp]; exact hpx),
        List.find?_cons_of_pos _ hpx, Option.map_some']
    | false =>
      rw [List.find?_cons_of_neg _ (by rw [hp]; simp [hpx]),
        List.find?_cons_of_neg _ (by simp [hpx])]
      exact ih

/-- Secret resolution commutes with an ARN-targeted row update that keeps
`arn` and `name`. -/
theorem findSecret_mapSecretRow (s : Store) (A : String) (g : Secret → Secret)
    (harn : ∀ x, (g x).arn = x.arn) (hname : ∀ x, (g x).name = x.name)
    (sid : String) :
    findSecret (mapSecretRow s A g) sid =
      (findSecret s sid).map (fun x => if x.arn == A then g x else x) := by
  unfold findSecret mapSecretRow
  exact find?_map_invariant _ _ _
    (fun x => by by_cases hx : x.arn == A <;> simp [hx, harn, hname])

/-- The latest-version lookup through a row update that only rewrites the
scheduled-delete marker to `w`. -/
theorem get_secret_latest_version_mapSecretRow (s : Store) (A : String)
    (g : Secret → Secret) (w : Option Int)
    (harn : ∀ x, (g x).arn = x.arn) (hname : ∀ x, (g x).name = x.name)
    (hdesc : ∀ x, (g x).description = x.description)
    (hcreated : ∀ x, (g x).createdAt = x.createdAt)
    (hw : ∀ x, (g x).scheduledDeleteAt = w) (sid : String) :
    get_secret_latest_version (mapSecretRow s A g) sid =
      (get_secret_latest_version s sid).map
        (fun sec => if sec.arn == A then { sec with scheduledDeleteAt := w }
          else sec) := by
  have hstEq : ∀ arn label,
      findStageByLabel (mapSecretRow s A g) arn label = findStageByLabel s arn label :=
    fun _ _ => rfl
  have hvEq : ∀ arn vid,
      findVersion (mapSecretRow s A g) arn vid = findVersion s arn vid :=
    fun _ _ => rfl
  have hjEq : ∀ y v, joinedRow (mapSecretRow s A g) y v = joinedRow s y v :=
    fun _ _ => rfl
  unfold get_secret_latest_version
  rw [findSecret_mapSecretRow s A g harn hname sid]
  cases hx : findSecret s sid with
  | none => rfl
  | some x =>
    simp only [Option.map_some', Option.bind_eq_bind, Option.some_bind, hstEq,
      hvEq, hjEq]
    by_cases hxa : x.arn == A
    · rw [if_pos hxa, harn x]
      cases hst : findStageByLabel s x.arn "AWSCURRENT" with
      | none => rfl
      | some st =>
        simp only [Option.some_bind]
        cases hv : findVersion s x.arn st.versionId with
        | none => rfl
        | some v =>
          simp only [Option.some_bind, Option.pure_def, Option.map_some']
          have hja : (joinedRow s x v).arn == A := hxa
          rw [if_pos hja]
          simp [joinedRow, harn, hname, hdesc, hcreated, hw]
    · rw [if_neg hxa]
      cases hst : findStageByLabel s x.arn "AWSCURRENT" with
      | none => rfl
      | some st =>
        simp only [Option.some_bind]
        cases hv : findVersion s x.arn st.versionId with
        | none => rfl
        | some v =>
          simp only [Option.some_bind, Option.pure_def, Option.map_some']
          have hja : ¬((joinedRow s x v).arn == A) := hxa
          rw [if_neg hja]

/-- The by-version-id lookup through the same row update. -/
theorem get_secret_by_version_id_mapSecretRow (s : Store) (A : String)
    (g : Secret → Secret) (w : Option Int)
    (harn : ∀ x, (g x).arn = x.arn) (hname : ∀ x, (g x).name = x.name)
    (hdesc : ∀ x, (g x).description = x.description)
    (hcreated : ∀ x, (g x).createdAt = x.createdAt)
    (hw : ∀ x, (g x).scheduledDeleteAt = w) (sid vid : String) :
    get_secret_by_version_id (mapSecretRow s A g) sid vid =
      (get_secret_by_version_id s sid vid).map
        (fun sec => if sec.arn == A then { sec with scheduledDeleteAt := w }
          else sec) := by
  have hvEq : ∀ arn vid,
      findVersion (mapSecretRow s A g) arn vid = findVersion s arn vid :=
    fun _ _ => rfl
  have hjEq : ∀ y v, joinedRow (mapSecretRow s A g) y v = joinedRow s y v :=
    fun _ _ => rfl
  unfold get_secret_by_version_id
  rw [findSecret_mapSecretRow s A g harn hname sid]
  cases hx : findSecret s sid with
  | none => rfl
  | some x =>
    simp only [Option.map_some', Option.bind_eq_bind, Option.some_bind, hvEq, hjEq]
    by_cases hxa : x.arn == A
    · rw [if_pos hxa, harn x]
      cases hv : findVersion s x.arn vid with
      | none => rfl
      | some v =>
        simp only [Option.some_bind, Option.pure_def, Option.map_some']
        have hja : (joinedRow s x v).arn == A := hxa
        rw [if_pos hja]
        simp [joinedRow, harn, hname, hdesc, hcreated, hw]
    · rw [if_neg hxa]
      cases hv : findVersion s x.arn vid with
      | none => rfl
      | some v =>
        simp only [Option.some_bind, Option.pure_def, Option.map_some']
        have hja : ¬((joinedRow s x v).arn == A) := hxa
        rw [if_neg hja]

/-- The by-stage lookup through the same row update. -/
theorem get_secret_by_version_stage_mapSecretRow (s : Store) (A : String)
    (g : Secret → Secret) (w : Option Int)
    (harn : ∀ x, (g x).arn = x.arn) (hname : ∀ x, (g x).name = x.name)
    (hdesc : ∀ x, (g x).description = x.description)
    (hcreated : ∀ x, (g x).createdAt = x.createdAt)
    (hw : ∀ x, (g x).scheduledDeleteAt = w) (sid label : String) :
    get_secret_by_version_stage (mapSecretRow s A g) sid label =
      (get_secret_by_version_stage s sid label).map
        (fun sec => if sec.arn == A then { sec with scheduledDeleteAt := w }
          else sec) := by
  have hstEq : ∀ arn label,
      findStageByLabel (mapSecretRow s A g) arn label = findStageByLabel s arn label :=
    fun _ _ => rfl
  have hvEq : ∀ arn vid,
      findVersion (mapSecretRow s A g) arn vid = findVersion s arn vid :=
    fun _ _ => rfl
  have hjEq : ∀ y v, joinedRow (mapSecretRow s A g) y v = joinedRow s y v :=
    fun _ _ => rfl
  unfold get_secret_by_version_stage
  rw [findSecret_mapSecretRow s A g harn hname sid]
  cases hx : findSecret s sid with
  | none => rfl
  | some x =>
    simp only [Option.map_some', Option.bind_eq_bind, Option.some_bind, hstEq,
      hvEq, hjEq]
    by_cases hxa : x.arn == A
    · rw [if_pos hxa, harn x]
      cases hst : findStageByLabel s x.arn label with
      | none => rfl
      | some st =>
        simp only [Option.some_bind]
        cases hv : findVersion s x.arn st.versionId with
        | none => rfl
        | some v =>
          simp only [Option.some_bind, Option.pure_def, Option.map_some']
          have hja : (joinedRow s x v).arn == A := hxa
          rw [if_pos hja]
          simp [joinedRow, harn, hname, hdesc, hcreated, hw]
    · rw [if_neg hxa]
      cases hst : findStageByLabel s x.arn label with
      | none => rfl
      | some st =>
        simp only [Option.some_bind]
        cases hv : findVersion s x.arn st.versionId with
        | none => rfl
        | some v =>
          simp only [Option.some_bind, Option.pure_def, Option.map_some']
          have hja : ¬((joinedRow s x v).arn == A) := hxa
          rw [if_neg hja]

/-- The by-stage-and-id lookup through the same row update. -/
theorem get_secret_by_version_stage_and_id_mapSecretRow (s : Store) (A : String)
    (g : Secret → Secret) (w : Option Int)
    (harn : ∀ x, (g x).arn = x.arn) (hname : ∀ x, (g x).name = x.name)
    (hdesc : ∀ x, (g x).description = x.description)
    (hcreated : ∀ x, (g x).createdAt = x.createdAt)
    (hw : ∀ x, (g x).scheduledDeleteAt = w) (sid vid label : String) :
    get_secret_by_version_stage_and_id (mapSecretRow s A g) sid vid label =
      (get_secret_by_version_stage_and_id s sid vid label).map
        (fun sec => if sec.arn == A then { sec with scheduledDeleteAt := w }
          else sec) := by
  have hfEq : ∀ (p : Stage → Bool),
      (mapSecretRow s A g).stages.find? p = s.stages.find? p := fun _ => rfl
  have hvEq : ∀ arn vid,
      findVersion (mapSecretRow s A g) arn vid = findVersion s arn vid :=
    fun _ _ => rfl
  have hjEq : ∀ y v, joinedRow (mapSecretRow s A g) y v = joinedRow s y v :=
    fun _ _ => rfl
  unfold get_secret_by_version_stage_and_id
  rw [findSecret_mapSecretRow s A g harn hname sid]
  cases hx : findSecret s sid with
  | none => rfl
  | some x =>
    simp only [Option.map_some', Option.bind_eq_bind, Option.some_bind, hfEq,
      hvEq, hjEq]
    by_cases hxa : x.arn == A
    · rw [if_pos hxa]
      simp only [harn]
      cases hfs : s.stages.find?
          (fun st => st.secretArn == x.arn && st.versionId == vid &&
            st.label == label) with
      | none => rfl
      | some st =>
        simp only [Option.some_bind]
        cases hv : findVersion s x.arn vid with
        | none => rfl
        | some v =>
          simp only [Option.some_bind, Option.pure_def, Option.map_some']
          have hja : (joinedRow s x v).arn == A := hxa
          rw [if_pos hja]
          simp [joinedRow, harn, hname, hdesc, hcreated, hw]
    · rw [if_neg hxa]
      cases hfs : s.stages.find?
          (fun st => st.secretArn == x.arn && st.versionId == vid &&
            st.label == label) with
      | none => rfl
      | some st =>
        simp only [Option.some_bind]
        cases hv : findVersion s x.arn vid with
        | none => rfl
        | some v =>
          simp only [Option.some_bind, Option.pure_def, Option.map_some']
          have hja : ¬((joinedRow s x v).arn == A) := hxa
          rw [if_neg hja]

/-- GetSecretValue's resolution, for every selector pair, through a row
update that only rewrites the scheduled-delete marker. -/
theorem resolveVersion_mapSecretRow (s : Store) (A : String)
    (g : Secret → Secret) (w : Option Int)
    (harn : ∀ x, (g x).arn = x.arn) (hname : ∀ x, (g x).name = x.name)
    (hdesc : ∀ x, (g x).description = x.description)
    (hcreated : ∀ x, (g x).createdAt = x.createdAt)
    (hw : ∀ x, (g x).scheduledDeleteAt = w) (sid : String)
    (ivid ivs : Option String) :
    resolveVersion (mapSecretRow s A g) sid ivid ivs =
      (resolveVersion s sid ivid ivs).map
        (fun sec => if sec.arn == A then { sec with scheduledDeleteAt := w }
          else sec) := by
  cases ivid with
  | none =>
    cases ivs with
    | none =>
      exact get_secret_latest_version_mapSecretRow s A g w harn hname hdesc
        hcreated hw sid
    | some l =>
      exact get_secret_by_version_stage_mapSecretRow s A g w harn hname hdesc
        hcreated hw sid l
  | some i =>
    cases ivs with
    | none =>
      exact get_secret_by_version_id_mapSecretRow s A g w harn hname hdesc
        hcreated hw sid i
    | some l =>
      exact get_secret_by_version_stage_and_id_mapSecretRow s A g w harn hname
        hdesc hcreated hw sid i l

/-- C7: after a non-forced DeleteSecret schedules the deletion, the same
GetSecretValue that resolved this secret fails with InvalidRequestException;
a subsequent RestoreSecret clears the marker and the same GetSecretValue
succeeds again. -/
theorem delete_then_restore_getSecretValue
    (s : Store) (sid gsid : String) (ivid ivs : Option String)
    (days now today : Int) (secD secG : SecretWithVersion)
    (hdel : get_secret_latest_version s sid = some secD)
    (hfresh : secD.scheduledDeleteAt = none)
    (hget : resolveVersion s gsid ivid ivs = some secG)
    (harnG : secG.arn = secD.arn) :
    ∃ s1, deleteSecretHandler sid false days now s =
        .ok (⟨secD.arn, secD.name, now + days * 86400⟩, s1) ∧
      getSecretValueHandler gsid ivid ivs today s1 =
        .error .invalidRequestException ∧
      ∃ r2 s2, restoreSecretHandler sid s1 = .ok (r2, s2) ∧
        ∃ r3 s3, getSecretValueHandler gsid ivid ivs today s2 = .ok (r3, s3) := by
  refine ⟨schedule_delete_secret s secD.arn (now + days * 86400), ?_, ?_, ?_⟩
  · simp only [deleteSecretHandler, hdel, hfresh]
    rfl
  · have h1 : resolveVersion
        (schedule_delete_secret s secD.arn (now + days * 86400)) gsid ivid ivs =
        some { secG with scheduledDeleteAt := some (now + days * 86400) } := by
      unfold schedule_delete_secret
      rw [resolveVersion_mapSecretRow s secD.arn
        (fun x => { x with scheduledDeleteAt := some (now + days * 86400) })
        (some (now + days * 86400))
        (fun _ => rfl) (fun _ => rfl) (fun _ => rfl) (fun _ => rfl) (fun _ => rfl)
        gsid ivid ivs, hget, Option.map_some',
        if_pos (show secG.arn == secD.arn by simp [harnG])]
    simp [getSecretValueHandler, h1]
  · have h2 : get_secret_latest_version
        (schedule_delete_secret s secD.arn (now + days * 86400)) sid =
        some { secD with scheduledDeleteAt := some (now + days * 86400) } := by
      unfold schedule_delete_secret
      rw [get_secret_latest_version_mapSecretRow s secD.arn
        (fun x => { x with scheduledDeleteAt := some (now + days * 86400) })
        (some (now + days * 86400)) (fun _ => rfl) (fun _ => rfl) (fun _ => rfl)
        (fun _ => rfl) (fun _ => rfl) sid, hdel, Option.map_some',
        if_pos (show secD.arn == secD.arn by simp)]
    refine ⟨⟨secD.arn, secD.name⟩,
      cancel_delete_secret
        (schedule_delete_secret s secD.arn (now + days * 86400)) secD.arn, ?_, ?_⟩
    · simp [restoreSecretHandler, h2]
    · have h3 : resolveVersion
          (cancel_delete_secret
            (schedule_delete_secret s secD.arn (now + days * 86400)) secD.arn)
          gsid ivid ivs =
          some { secG with scheduledDeleteAt := none } := by
        unfold cancel_delete_secret
        rw [resolveVersion_mapSecretRow _ secD.arn
          (fun x => { x with scheduledDeleteAt := none, deletedAt := none }) none
          (fun _ => rfl) (fun _ => rfl) (fun _ => rfl) (fun _ => rfl) (fun _ => rfl)
          gsid ivid ivs]
        have h1 : resolveVersion
            (schedule_delete_secret s secD.arn (now + days * 86400)) gsid ivid ivs =
            some { secG with scheduledDeleteAt := some (now + days * 86400) } := by
          unfold schedule_delete_secret
          rw [resolveVersion_mapSecretRow s secD.arn
            (fun x => { x with scheduledDeleteAt := some (now + days * 86400) })
            (some (now + days * 86400))
            (fun _ => rfl) (fun _ => rfl) (fun _ => rfl) (fun _ => rfl)
            (fun _ => rfl) gsid ivid ivs, hget, Option.map_some',
            if_pos (show secG.arn == secD.arn by simp [harnG])]
        have harn2 : ({ secG with scheduledDeleteAt := some (now + days * 86400) } : SecretWithVersion).arn == secD.arn := by
          simp [harnG]
        rw [h1, Option.map_some', if_pos harn2]
      have h4 : getSecretValueHandler gsid ivid ivs today
          (cancel_delete_secret
            (schedule_delete_secret s secD.arn (now + days * 86400)) secD.arn) =
          .ok (⟨secG.arn,
                (if ivid.isSome then secG.versionCreatedAt else secG.createdAt),
                secG.name, secG.secretString, secG.secretBinary, secG.versionId,
                secG.versionStages⟩,
               update_secret_version_last_accessed
                 (cancel_delete_secret
                   (schedule_delete_secret s secD.arn (now + days * 86400))
                   secD.arn)
                 secG.arn secG.versionId today) := by
        simp [getSecretValueHandler, h3]
      exact ⟨_, _, h4⟩

/-- Witness for C7 on the base store: schedule, reject, restore, succeed. -/
theorem delete_then_restore_getSecretValue_witness :
    ∃ s1, deleteSecretHandler "n" false 7 50 storeBase =
        .ok (⟨"A", "n", 50 + 7 * 86400⟩, s1) ∧
      getSecretValueHandler "n" none none 3 s1 = .error .invalidRequestException ∧
      ∃ r2 s2, restoreSecretHandler "n" s1 = .ok (r2, s2) ∧
        ∃ r3 s3, getSecretValueHandler "n" none none 3 s2 = .ok (r3, s3) :=
  delete_then_restore_getSecretValue storeBase "n" "n" none none 7 50 3
    ⟨"A", "n", none, 0, none, "v1", some "s", none, 0, ["AWSCURRENT"]⟩
    ⟨"A", "n", none, 0, none, "v1", some "s", none, 0, ["AWSCURRENT"]⟩
    (by decide) rfl (by decide) rfl

/-- Witness for C5 (amended): a bad `x-amz-date` alone rejects; with it
absent, the IMF-fixdate Date header drives the gate to the header checks. -/
theorem amz_date_fallback_only_when_absent_witness :
    authGate 784111777 "TEST".toList
      ⟨.val authHeaderOk, .val "garbage".toList, .val imfDateOk⟩ =
      .invalidRequest ∧
    authGate 784111777 "TEST".toList
      ⟨.val authHeaderOk, .absent, .val imfDateOk⟩ =
      verify_auth_header "TEST".toList authHeaderOk :=
  ⟨(amz_date_fallback_only_when_absent).1 784111777 "TEST".toList authHeaderOk
      "garbage".toList (.val imfDateOk) rfl,
   (amz_date_fallback_only_when_absent).2 784111777 "TEST".toList authHeaderOk
      imfDateOk 784111777 (by decide) (by decide)⟩


theorem stagesOf_remove_same (l : List Stage) (arn lab : String) :
    stagesOf (l.filter (fun st => !(st.secretArn == arn && st.label == lab)))
      arn lab = [] := by
  unfold stagesOf
  rw [List.filter_filter, List.filter_eq_nil_iff]
  intro st _
  simp

theorem stagesOf_remove_other (l : List Stage) (arn lab lab' : String)
    (h : lab' ≠ lab) :
    stagesOf (l.filter (fun st => !(st.secretArn == arn && st.label == lab)))
      arn lab' = stagesOf l arn lab' := by
  unfold stagesOf
  rw [List.filter_filter]
  refine List.filter_congr ?_
  intro st _
  by_cases h1 : st.secretArn == arn <;> by_cases h2 : st.label == lab' <;>
    simp_all

theorem stagesOf_cons_same (l : List Stage) (arn vid lab : String) :
    stagesOf (⟨arn, vid, lab⟩ :: l) arn lab = ⟨arn, vid, lab⟩ :: stagesOf l arn lab := by
  simp [stagesOf]

theorem stagesOf_cons_other (l : List Stage) (arn vid lab lab' : String)
    (h : lab' ≠ lab) :
    stagesOf (⟨arn, vid, lab⟩ :: l) arn lab' = stagesOf l arn lab' := by
  unfold stagesOf
  rw [List.filter_cons_of_neg]
  simp [Ne.symm h]

theorem add_ok_of_stagesOf_nil (s0 : Store) (arn vid lab : String)
    (h : stagesOf s0.stages arn lab = []) :
    add_secret_version_stage s0 arn vid lab =
      .ok { s0 with stages := ⟨arn, vid, lab⟩ :: s0.stages } := by
  unfold add_secret_version_stage
  rw [if_neg]
  intro hany
  rw [List.any_eq_true] at hany
  obtain ⟨st, hm, hp⟩ := hany
  unfold stagesOf at h
  rw [List.filter_eq_nil_iff] at h
  exact h st hm hp

theorem putStagePromote_current (arn old : String) (s1 : Store) :
    putStagePromote arn old "AWSCURRENT" s1 =
      .ok ⟨s1.secrets, s1.versions,
        ⟨arn, old, "AWSPREVIOUS"⟩ ::
          (s1.stages.filter
            (fun st => !(st.secretArn == arn && st.label == "AWSPREVIOUS"))),
        s1.tags⟩ := by
  have haddp := add_ok_of_stagesOf_nil
    (remove_secret_version_stage_any s1 arn "AWSPREVIOUS")
    arn old "AWSPREVIOUS" (stagesOf_remove_same _ _ _)
  unfold putStagePromote
  rw [if_pos rfl]
  simp only [haddp]
  rfl

theorem putStagePromote_other (arn old l : String) (s1 : Store)
    (hl : l ≠ "AWSCURRENT") :
    putStagePromote arn old l s1 = .ok s1 := by
  unfold putStagePromote
  rw [if_neg hl]

theorem putStageStep_current (arn old new : String) (s0 : Store) :
    putStageStep arn old new "AWSCURRENT" s0 =
      .ok ⟨s0.secrets, s0.versions,
        ⟨arn, new, "AWSCURRENT"⟩ :: ⟨arn, old, "AWSPREVIOUS"⟩ ::
          ((s0.stages.filter
            (fun st => !(st.secretArn == arn && st.label == "AWSCURRENT"))).filter
            (fun st => !(st.secretArn == arn && st.label == "AWSPREVIOUS"))),
        s0.tags⟩ := by
  have hpromote := putStagePromote_current arn old
    (remove_secret_version_stage_any s0 arn "AWSCURRENT")
  have haddc := add_ok_of_stagesOf_nil
    ⟨(remove_secret_version_stage_any s0 arn "AWSCURRENT").secrets,
     (remove_secret_version_stage_any s0 arn "AWSCURRENT").versions,
     ⟨arn, old, "AWSPREVIOUS"⟩ ::
       ((remove_secret_version_stage_any s0 arn "AWSCURRENT").stages.filter
         (fun st => !(st.secretArn == arn && st.label == "AWSPREVIOUS"))),
     (remove_secret_version_stage_any s0 arn "AWSCURRENT").tags⟩
    arn new "AWSCURRENT"
    (by
      rw [show (⟨(remove_secret_version_stage_any s0 arn "AWSCURRENT").secrets,
        (remove_secret_version_stage_any s0 arn "AWSCURRENT").versions,
        ⟨arn, old, "AWSPREVIOUS"⟩ ::
          ((remove_secret_version_stage_any s0 arn "AWSCURRENT").stages.filter
            (fun st => !(st.secretArn == arn && st.label == "AWSPREVIOUS"))),
        (remove_secret_version_stage_any s0 arn "AWSCURRENT").tags⟩ : Store).stages =
        ⟨arn, old, "AWSPREVIOUS"⟩ ::
          ((remove_secret_version_stage_any s0 arn "AWSCURRENT").stages.filter
            (fun st => !(st.secretArn == arn && st.label == "AWSPREVIOUS")))
        from rfl]
      rw [stagesOf_cons_other _ _ _ _ _ (by decide)]
      exact (stagesOf_remove_other _ _ _ _ (by decide)).trans
        (stagesOf_remove_same _ _ _))
  simp only [putStageStep, hpromote]
  rw [haddc]
  rfl

theorem putStageStep_other (arn old new l : String) (s0 : Store)
    (hl : l ≠ "AWSCURRENT") :
    putStageStep arn old new l s0 =
      .ok ⟨s0.secrets, s0.versions,
        ⟨arn, new, l⟩ ::
          (s0.stages.filter (fun st => !(st.secretArn == arn && st.label == l))),
        s0.tags⟩ := by
  have hpromote := putStagePromote_other arn old l
    (remove_secret_version_stage_any s0 arn l) hl
  have hadd := add_ok_of_stagesOf_nil
    (remove_secret_version_stage_any s0 arn l) arn new l
    (stagesOf_remove_same _ _ _)
  simp only [putStageStep, hpromote]
  rw [hadd]
  rfl

theorem putStagesLoop_preserve (arn old new : String) :
    ∀ (labels : List String) (s0 : Store),
      "AWSCURRENT" ∉ labels → "AWSPREVIOUS" ∉ labels →
      ∃ s', putStagesLoop arn old new labels s0 = .ok s' ∧
        stagesOf s'.stages arn "AWSCURRENT" = stagesOf s0.stages arn "AWSCURRENT" ∧
        stagesOf s'.stages arn "AWSPREVIOUS" = stagesOf s0.stages arn "AWSPREVIOUS" := by
  intro labels
  induction labels with
  | nil => intro s0 _ _; exact ⟨s0, rfl, rfl, rfl⟩
  | cons l rest ih =>
    intro s0 hc hp
    have hlc : l ≠ "AWSCURRENT" := by
      intro he
      apply hc
      rw [← he]
      exact List.mem_cons_self _ _
    have hlp : l ≠ "AWSPREVIOUS" := by
      intro he
      apply hp
      rw [← he]
      exact List.mem_cons_self _ _
    have hrc : "AWSCURRENT" ∉ rest := fun hm => hc (List.mem_cons_of_mem _ hm)
    have hrp : "AWSPREVIOUS" ∉ rest := fun hm => hp (List.mem_cons_of_mem _ hm)
    obtain ⟨s', hs', hc', hp'⟩ := ih
      ⟨s0.secrets, s0.versions,
       ⟨arn, new, l⟩ ::
         (s0.stages.filter (fun st => !(st.secretArn == arn && st.label == l))),
       s0.tags⟩ hrc hrp
    refine ⟨s', ?_, ?_, ?_⟩
    · simp only [putStagesLoop, putStageStep_other arn old new l s0 hlc]
      exact hs'
    · rw [hc']
      exact (stagesOf_cons_other _ _ _ _ _ (Ne.symm hlc)).trans
        (stagesOf_remove_other _ _ _ _ (Ne.symm hlc))
    · rw [hp']
      exact (stagesOf_cons_other _ _ _ _ _ (Ne.symm hlp)).trans
        (stagesOf_remove_other _ _ _ _ (Ne.symm hlp))

theorem putStagesLoop_current (arn old new : String) :
    ∀ (labels : List String) (s0 : Store),
      "AWSCURRENT" ∈ labels → "AWSPREVIOUS" ∉ labels →
      ∃ s', putStagesLoop arn old new labels s0 = .ok s' ∧
        stagesOf s'.stages arn "AWSCURRENT" = [⟨arn, new, "AWSCURRENT"⟩] ∧
        stagesOf s'.stages arn "AWSPREVIOUS" = [⟨arn, old, "AWSPREVIOUS"⟩] := by
  intro labels
  induction labels with
  | nil => intro s0 hcur _; exact absurd hcur (List.not_mem_nil _)
  | cons l rest ih =>
    intro s0 hcur hp
    have hlp : l ≠ "AWSPREVIOUS" := by
      intro he
      apply hp
      rw [← he]
      exact List.mem_cons_self _ _
    have hrp : "AWSPREVIOUS" ∉ rest := fun hm => hp (List.mem_cons_of_mem _ hm)
    by_cases hl : l = "AWSCURRENT"
    · subst hl
      by_cases hcr : "AWSCURRENT" ∈ rest
      · obtain ⟨s', hs', h1, h2⟩ := ih
          ⟨s0.secrets, s0.versions,
           ⟨arn, new, "AWSCURRENT"⟩ :: ⟨arn, old, "AWSPREVIOUS"⟩ ::
             ((s0.stages.filter
               (fun st => !(st.secretArn == arn && st.label == "AWSCURRENT"))).filter
               (fun st => !(st.secretArn == arn && st.label == "AWSPREVIOUS"))),
           s0.tags⟩ hcr hrp
        refine ⟨s', ?_, h1, h2⟩
        simp only [putStagesLoop, putStageStep_current arn old new s0]
        exact hs'
      · obtain ⟨s', hs', h1, h2⟩ := putStagesLoop_preserve arn old new rest
          ⟨s0.secrets, s0.versions,
           ⟨arn, new, "AWSCURRENT"⟩ :: ⟨arn, old, "AWSPREVIOUS"⟩ ::
             ((s0.stages.filter
               (fun st => !(st.secretArn == arn && st.label == "AWSCURRENT"))).filter
               (fun st => !(st.secretArn == arn && st.label == "AWSPREVIOUS"))),
           s0.tags⟩ hcr hrp
        refine ⟨s', ?_, ?_, ?_⟩
        · simp only [putStagesLoop, putStageStep_current arn old new s0]
          exact hs'
        · rw [h1, stagesOf_cons_same]
          rw [show stagesOf (⟨arn, old, "AWSPREVIOUS"⟩ ::
              ((s0.stages.filter
                (fun st => !(st.secretArn == arn && st.label == "AWSCURRENT"))).filter
                (fun st => !(st.secretArn == arn && st.label == "AWSPREVIOUS"))))
              arn "AWSCURRENT" = [] from
            (stagesOf_cons_other _ _ _ _ _ (by decide)).trans
              ((stagesOf_remove_other _ _ _ _ (by decide)).trans
                (stagesOf_remove_same _ _ _))]
        · rw [h2, stagesOf_cons_other _ _ _ _ _ (by decide), stagesOf_cons_same,
            stagesOf_remove_same]
    · have hcr : "AWSCURRENT" ∈ rest := by
        rcases List.mem_cons.mp hcur with he | hm
        · exact absurd he.symm hl
        · exact hm
      obtain ⟨s', hs', h1, h2⟩ := ih
        ⟨s0.secrets, s0.versions,
         ⟨arn, new, l⟩ ::
           (s0.stages.filter (fun st => !(st.secretArn == arn && st.label == l))),
         s0.tags⟩ hcr hrp
      refine ⟨s', ?_, h1, h2⟩
      simp only [putStagesLoop, putStageStep_other arn old new l s0 hl]
      exact hs'

/-- C2 counterexample: a successful PutSecretValue whose stage list is
`[AWSCURRENT, AWSPREVIOUS]` — a list containing `AWSCURRENT` together with
another label — leaves the newly inserted version `v2` holding both
`AWSCURRENT` and `AWSPREVIOUS` while the previously resolved version `v1`
holds neither, so the `AWSCURRENT` holder and the `AWSPREVIOUS` holder are
the same version. -/
theorem put_awsprevious_in_stages_breaks_invariant :
    putSecretValueHandler "n" "v2" (some "s2") none
        (some ["AWSCURRENT", "AWSPREVIOUS"]) 10 storeBase =
      .ok (⟨"A", "n", "v2", ["AWSCURRENT", "AWSPREVIOUS"]⟩, storeAfterPutPrev) ∧
    Stage.mk "A" "v2" "AWSPREVIOUS" ∈ storeAfterPutPrev.stages ∧
    Stage.mk "A" "v2" "AWSCURRENT" ∈ storeAfterPutPrev.stages ∧
    Stage.mk "A" "v1" "AWSPREVIOUS" ∉ storeAfterPutPrev.stages := by
  refine ⟨rfl, by decide, by decide, by decide⟩

/-- C2 (amended): for every successful PutSecretValue whose requested
version-stage list contains `AWSCURRENT` and does not contain `AWSPREVIOUS`
(the default list included, other labels in any order): the newly inserted
version holds `AWSCURRENT`, the previously resolved version holds
`AWSPREVIOUS`, exactly one version of the secret holds `AWSCURRENT`, exactly
one holds `AWSPREVIOUS`, and the two holders are different versions. -/
theorem putSecretValue_current_previous_stages
    (s : Store) (sid vid : String) (ss : Option String) (sb : Option (List Nat))
    (vsReq : Option (List String)) (stages : List String) (now : Int)
    (secret : SecretWithVersion)
    (hvs : vsReq.getD ["AWSCURRENT"] = stages)
    (hcur : "AWSCURRENT" ∈ stages) (hprev : "AWSPREVIOUS" ∉ stages)
    (h1 : ¬(ss.isSome ∧ sb.isSome)) (h2 : ¬(ss.isNone ∧ sb.isNone))
    (hres : get_secret_latest_version s sid = some secret)
    (hfresh : ¬∃ v ∈ s.versions, v.secretArn = secret.arn ∧ v.versionId = vid) :
    ∃ s', putSecretValueHandler sid vid ss sb vsReq now s =
        .ok (⟨secret.arn, secret.name, vid, stages⟩, s') ∧
      stagesOf s'.stages secret.arn "AWSCURRENT" =
        [⟨secret.arn, vid, "AWSCURRENT"⟩] ∧
      stagesOf s'.stages secret.arn "AWSPREVIOUS" =
        [⟨secret.arn, secret.versionId, "AWSPREVIOUS"⟩] ∧
      vid ≠ secret.versionId := by
  have h2' : ¬(ss = none ∧ sb = none) := by simpa using h2
  have hanyf : (s.versions.any
      (fun v => v.secretArn == secret.arn && v.versionId == vid)) = false := by
    rw [List.any_eq_false]
    intro v hv hp
    simp only [Bool.and_eq_true, beq_iff_eq] at hp
    exact hfresh ⟨v, hv, hp.1, hp.2⟩
  have hcv : create_secret_version s secret.arn vid ss sb now =
      .ok ⟨s.secrets, ⟨secret.arn, vid, ss, sb, now, none⟩ :: s.versions,
           s.stages, s.tags⟩ := by
    unfold create_secret_version
    rw [if_neg (by simp [hanyf])]
  obtain ⟨x, st, v, hx, hst, hv, hj⟩ := get_secret_latest_version_decomp hres
  have hvrow := findVersion_spec hv
  have hvidne : vid ≠ secret.versionId := by
    intro he
    apply hfresh
    subst hj
    exact ⟨v, hvrow.1, hvrow.2.1, he.symm⟩
  obtain ⟨s', hloop, hcur', hprev'⟩ :=
    putStagesLoop_current secret.arn secret.versionId vid stages
      ⟨s.secrets, ⟨secret.arn, vid, ss, sb, now, none⟩ :: s.versions,
       s.stages, s.tags⟩ hcur hprev
  have key : putSecretValueResolved sid vid ss sb stages now s =
      .ok (⟨secret.arn, secret.name, vid, stages⟩, s') := by
    simp [putSecretValueResolved, h1, h2, h2', hres, hcv, hloop]
  cases vsReq with
  | none =>
    have hvseq : ["AWSCURRENT"] = stages := by simpa using hvs
    subst hvseq
    exact ⟨s', key, hcur', hprev', hvidne⟩
  | some vlist =>
    have hvseq : vlist = stages := by simpa using hvs
    subst hvseq
    have hne : ¬(vlist = []) := by
      intro h
      rw [h] at hcur
      exact List.not_mem_nil _ hcur
    refine ⟨s', ?_, hcur', hprev', hvidne⟩
    simp only [putSecretValueHandler]
    rw [if_neg hne]
    exact key

/-- Witness for C2 (amended): the default stage list on the base store. -/
theorem putSecretValue_current_previous_stages_witness :
    ∃ s', putSecretValueHandler "n" "v2" (some "s2") none none 10 storeBase =
        .ok (⟨"A", "n", "v2", ["AWSCURRENT"]⟩, s') ∧
      stagesOf s'.stages "A" "AWSCURRENT" = [⟨"A", "v2", "AWSCURRENT"⟩] ∧
      stagesOf s'.stages "A" "AWSPREVIOUS" = [⟨"A", "v1", "AWSPREVIOUS"⟩] ∧
      ("v2" : String) ≠ "v1" :=
  putSecretValue_current_previous_stages storeBase "n" "v2" (some "s2") none
    none ["AWSCURRENT"] 10
    ⟨"A", "n", none, 0, none, "v1", some "s", none, 0, ["AWSCURRENT"]⟩
    rfl (by decide) (by decide) (by simp) (by simp) (by decide) (by decide)

/-! ## C8: GetRandomPassword properties -/

lemma getD_mem_of_lt {xs : List Char} {i : Nat} (h : i < xs.length) (d : Char) :
    xs.getD i d ∈ xs := by
  rw [List.getD_eq_getElem?_getD, List.getElem?_eq_getElem h, Option.getD_some]
  exact List.getElem_mem h

lemma contains_true_iff {l : List Char} {c : Char} : l.contains c = true ↔ c ∈ l :=
  List.elem_iff

lemma chooseFrom_mem {g : Nat → Nat} {k : Nat} {xs : List Char} {c : Char} {k1 : Nat}
    (h : chooseFrom g k xs = some (c, k1)) : c ∈ xs := by
  cases xs with
  | nil => simp [chooseFrom] at h
  | cons a rest =>
    simp only [chooseFrom, Option.some.injEq, Prod.mk.injEq] at h
    obtain ⟨h1, _⟩ := h
    rw [← h1]
    exact getD_mem_of_lt (Nat.mod_lt _ (by simp)) ' '

lemma pickEach_spec (g : Nat → Nat) :
    ∀ (sets : List (List Char)) (k : Nat) (cs : List Char) (k1 : Nat),
      pickEach g sets k = .ok (cs, k1) →
      cs.length = sets.length ∧
      (∀ c ∈ cs, ∃ set ∈ sets, c ∈ set) ∧
      (∀ set ∈ sets, ∃ c ∈ cs, c ∈ set) := by
  intro sets
  induction sets with
  | nil =>
    intro k cs k1 h
    simp only [pickEach, Except.ok.injEq, Prod.mk.injEq] at h
    obtain ⟨h1, _⟩ := h
    subst h1
    exact ⟨rfl, by simp, by simp⟩
  | cons set rest ih =>
    intro k cs k1 h
    simp only [pickEach] at h
    cases hch : chooseFrom g k set with
    | none => simp [hch] at h
    | some ck =>
      obtain ⟨c0, ka⟩ := ck
      simp only [hch] at h
      cases hpe : pickEach g rest ka with
      | error e => simp [hpe] at h
      | ok p =>
        obtain ⟨cs1, kb⟩ := p
        simp only [hpe, Except.ok.injEq, Prod.mk.injEq] at h
        obtain ⟨hcs, _⟩ := h
        subst hcs
        obtain ⟨hlen, hmem, hrep⟩ := ih ka cs1 kb hpe
        refine ⟨by simp [hlen], ?_, ?_⟩
        · intro c hc
          rcases List.mem_cons.mp hc with rfl | hm
          · exact ⟨set, List.mem_cons_self set rest, chooseFrom_mem hch⟩
          · obtain ⟨s2, hs2, hcs2⟩ := hmem c hm
            exact ⟨s2, List.mem_cons_of_mem set hs2, hcs2⟩
        · intro s2 hs2
          rcases List.mem_cons.mp hs2 with rfl | hm
          · exact ⟨c0, List.mem_cons_self c0 cs1, chooseFrom_mem hch⟩
          · obtain ⟨c, hc, hcc⟩ := hrep s2 hm
            exact ⟨c, List.mem_cons_of_mem c0 hc, hcc⟩

lemma fillChars_spec (g : Nat → Nat) (allowed : List Char) :
    ∀ (n k : Nat) (cs : List Char) (k1 : Nat),
      fillChars g allowed n k = .ok (cs, k1) →
      cs.length = n ∧ ∀ c ∈ cs, c ∈ allowed := by
  intro n
  induction n with
  | zero =>
    intro k cs k1 h
    simp only [fillChars, Except.ok.injEq, Prod.mk.injEq] at h
    obtain ⟨h1, _⟩ := h
    subst h1
    exact ⟨rfl, by simp⟩
  | succ n ih =>
    intro k cs k1 h
    simp only [fillChars] at h
    cases hch : chooseFrom g k allowed with
    | none => simp [hch] at h
    | some ck =>
      obtain ⟨c0, ka⟩ := ck
      simp only [hch] at h
      cases hfc : fillChars g allowed n ka with
      | error e => simp [hfc] at h
      | ok p =>
        obtain ⟨cs1, kb⟩ := p
        simp only [hfc, Except.ok.injEq, Prod.mk.injEq] at h
        obtain ⟨hcs, _⟩ := h
        subst hcs
        obtain ⟨hlen, hmem⟩ := ih ka cs1 kb hfc
        refine ⟨by simp [hlen], ?_⟩
        intro c hc
        rcases List.mem_cons.mp hc with rfl | hm
        · exact chooseFrom_mem hch
        · exact hmem c hm

lemma perm_getD_cons_eraseIdx (d : Char) :
    ∀ (xs : List Char) (j : Nat), j < xs.length →
      List.Perm xs (xs.getD j d :: xs.eraseIdx j) := by
  intro xs
  induction xs with
  | nil => intro j h; simp at h
  | cons a rest ih =>
    intro j h
    cases j with
    | zero =>
      have h0 : (a :: rest).getD 0 d = a := rfl
      have h1 : (a :: rest).eraseIdx 0 = rest := rfl
      rw [h0, h1]
    | succ j =>
      have hj : j < rest.length := by simp at h; omega
      have h0 : (a :: rest).getD (j + 1) d = rest.getD j d := rfl
      have h1 : (a :: rest).eraseIdx (j + 1) = a :: rest.eraseIdx j := rfl
      rw [h0, h1]
      exact (List.Perm.cons a (ih j hj)).trans (List.Perm.swap _ a _)

lemma shuffleGo_perm (g : Nat → Nat) :
    ∀ (n k : Nat) (xs : List Char), n = xs.length →
      List.Perm (shuffleGo g n k xs) xs := by
  intro n
  induction n with
  | zero =>
    intro k xs h
    cases xs with
    | nil => simp [shuffleGo]
    | cons a rest => simp at h
  | succ n ih =>
    intro k xs h
    cases xs with
    | nil => simp at h
    | cons a rest =>
      simp only [shuffleGo]
      have hlt : g k % (a :: rest).length < (a :: rest).length :=
        Nat.mod_lt _ (by simp)
      have herase : n = ((a :: rest).eraseIdx (g k % (a :: rest).length)).length := by
        rw [List.length_eraseIdx_of_lt hlt]
        simp only [List.length_cons] at h ⊢
        omega
      exact (List.Perm.cons _ (ih (k + 1) _ herase)).trans
        (perm_getD_cons_eraseIdx ' ' _ _ hlt).symm

lemma shuffleChars_perm (g : Nat → Nat) (k : Nat) (xs : List Char) :
    List.Perm (shuffleChars g k xs) xs :=
  shuffleGo_perm g xs.length k xs rfl

lemma mem_typeSets_iff {opts : PasswordOptions} {set : List Char} :
    set ∈ typeSets opts ↔
      ((opts.excludeLowercase = false ∧
          set = filter_allowed LOWERCASE opts.excludeCharacters) ∨
       (opts.excludeUppercase = false ∧
          set = filter_allowed UPPERCASE opts.excludeCharacters) ∨
       (opts.excludeNumbers = false ∧
          set = filter_allowed NUMBERS opts.excludeCharacters) ∨
       (opts.excludePunctuation = false ∧
          set = filter_allowed PUNCTUATION opts.excludeCharacters)) := by
  unfold typeSets
  by_cases h1 : opts.excludeLowercase <;> by_cases h2 : opts.excludeUppercase <;>
    by_cases h3 : opts.excludeNumbers <;> by_cases h4 : opts.excludePunctuation <;>
    simp [h1, h2, h3, h4]

lemma mem_filter_allowed {set excluded : List Char} {c : Char} :
    c ∈ filter_allowed set excluded ↔ c ∈ set ∧ c ∉ excluded := by
  simp [filter_allowed, List.mem_filter]

lemma mem_allowedChars_elim {opts : PasswordOptions} {c : Char}
    (h : c ∈ allowedChars opts) :
    ((opts.excludeLowercase = false ∧ c ∈ LOWERCASE) ∨
     (opts.excludeUppercase = false ∧ c ∈ UPPERCASE) ∨
     (opts.excludeNumbers = false ∧ c ∈ NUMBERS) ∨
     (opts.excludePunctuation = false ∧ c ∈ PUNCTUATION) ∨
     (opts.includeSpace = true ∧ c = ' ')) ∧
    c ∉ opts.excludeCharacters := by
  simp only [allowedChars] at h
  by_cases hsp : opts.includeSpace = true ∧ ¬ opts.excludeCharacters.contains ' ' = true
  · rw [if_pos hsp] at h
    rcases List.mem_append.mp h with hb | hs
    · obtain ⟨set, hset, hcset⟩ := List.mem_flatten.mp hb
      rcases mem_typeSets_iff.mp hset with ⟨hf, rfl⟩ | ⟨hf, rfl⟩ | ⟨hf, rfl⟩ | ⟨hf, rfl⟩ <;>
        obtain ⟨hcc, hnx⟩ := mem_filter_allowed.mp hcset
      · exact ⟨Or.inl ⟨hf, hcc⟩, hnx⟩
      · exact ⟨Or.inr (Or.inl ⟨hf, hcc⟩), hnx⟩
      · exact ⟨Or.inr (Or.inr (Or.inl ⟨hf, hcc⟩)), hnx⟩
      · exact ⟨Or.inr (Or.inr (Or.inr (Or.inl ⟨hf, hcc⟩))), hnx⟩
    · have hc : c = ' ' := by simpa using hs
      subst hc
      refine ⟨Or.inr (Or.inr (Or.inr (Or.inr ⟨hsp.1, rfl⟩))), fun hmem => ?_⟩
      exact hsp.2 (contains_true_iff.mpr hmem)
  · rw [if_neg hsp] at h
    obtain ⟨set, hset, hcset⟩ := List.mem_flatten.mp h
    rcases mem_typeSets_iff.mp hset with ⟨hf, rfl⟩ | ⟨hf, rfl⟩ | ⟨hf, rfl⟩ | ⟨hf, rfl⟩ <;>
      obtain ⟨hcc, hnx⟩ := mem_filter_allowed.mp hcset
    · exact ⟨Or.inl ⟨hf, hcc⟩, hnx⟩
    · exact ⟨Or.inr (Or.inl ⟨hf, hcc⟩), hnx⟩
    · exact ⟨Or.inr (Or.inr (Or.inl ⟨hf, hcc⟩)), hnx⟩
    · exact ⟨Or.inr (Or.inr (Or.inr (Or.inl ⟨hf, hcc⟩))), hnx⟩

lemma typeSets_subset_allowed {opts : PasswordOptions} {set : List Char} {c : Char}
    (hset : set ∈ typeSets opts) (hc : c ∈ set) : c ∈ allowedChars opts := by
  simp only [allowedChars]
  by_cases hsp : opts.includeSpace = true ∧ ¬ opts.excludeCharacters.contains ' ' = true
  · rw [if_pos hsp]
    exact List.mem_append_left _ (List.mem_flatten.mpr ⟨set, hset, hc⟩)
  · rw [if_neg hsp]
    exact List.mem_flatten.mpr ⟨set, hset, hc⟩

/-- C8: whenever GetRandomPassword succeeds, the password has exactly
`password_length` characters, every character comes from a non-excluded
class charset (or is the space when `include_space` is set) and is not in
`exclude_characters`; and in `require_each_included_type` mode every
included class contributes at least one character. -/
theorem get_random_password_properties
    (g : Nat → Nat) (opts : PasswordOptions) (pw : List Char)
    (h : get_random_password g opts = .ok pw) :
    pw.length = opts.passwordLength ∧
    (∀ c ∈ pw,
      ((opts.excludeLowercase = false ∧ c ∈ LOWERCASE) ∨
       (opts.excludeUppercase = false ∧ c ∈ UPPERCASE) ∨
       (opts.excludeNumbers = false ∧ c ∈ NUMBERS) ∨
       (opts.excludePunctuation = false ∧ c ∈ PUNCTUATION) ∨
       (opts.includeSpace = true ∧ c = ' ')) ∧
      c ∉ opts.excludeCharacters) ∧
    (opts.requireEachIncludedType = true →
      (opts.excludeLowercase = false → ∃ c, c ∈ pw ∧ c ∈ LOWERCASE) ∧
      (opts.excludeUppercase = false → ∃ c, c ∈ pw ∧ c ∈ UPPERCASE) ∧
      (opts.excludeNumbers = false → ∃ c, c ∈ pw ∧ c ∈ NUMBERS) ∧
      (opts.excludePunctuation = false → ∃ c, c ∈ pw ∧ c ∈ PUNCTUATION)) := by
  simp only [get_random_password] at h
  by_cases hemp : (allowedChars opts).isEmpty = true
  · rw [if_pos hemp] at h
    simp at h
  · rw [if_neg hemp] at h
    by_cases hreq : opts.requireEachIncludedType = true
    · rw [if_pos hreq] at h
      by_cases hlen : opts.passwordLength < (typeSets opts).length
      · rw [if_pos hlen] at h
        simp at h
      · rw [if_neg hlen] at h
        cases hpe : pickEach g (typeSets opts) 0 with
        | error e => simp [hpe] at h
        | ok p =>
          obtain ⟨picks, k1⟩ := p
          simp only [hpe] at h
          cases hfc : fillChars g (allowedChars opts) (opts.passwordLength - picks.length) k1 with
          | error e => simp [hfc] at h
          | ok q =>
            obtain ⟨fills, k2⟩ := q
            simp only [hfc, Except.ok.injEq] at h
            have hperm : List.Perm pw (picks ++ fills) := by
              rw [← h]
              exact shuffleChars_perm g k2 (picks ++ fills)
            obtain ⟨hplen, hpmem, hprep⟩ := pickEach_spec g (typeSets opts) 0 picks k1 hpe
            obtain ⟨hflen, hfmem⟩ :=
              fillChars_spec g (allowedChars opts) (opts.passwordLength - picks.length)
                k1 fills k2 hfc
            refine ⟨?_, ?_, ?_⟩
            · have hl := hperm.length_eq
              rw [List.length_append, hplen, hflen] at hl
              omega
            · intro c hc
              have hc2 : c ∈ picks ++ fills := hperm.mem_iff.mp hc
              rcases List.mem_append.mp hc2 with hcp | hcf
              · obtain ⟨set, hset, hcset⟩ := hpmem c hcp
                have := mem_allowedChars_elim (typeSets_subset_allowed hset hcset)
                exact this
              · exact mem_allowedChars_elim (hfmem c hcf)
            · intro _
              have hwit : ∀ set ∈ typeSets opts, ∃ c, c ∈ pw ∧ c ∈ set := by
                intro set hset
                obtain ⟨c, hcp, hcs⟩ := hprep set hset
                exact ⟨c, hperm.mem_iff.mpr (List.mem_append_left _ hcp), hcs⟩
              refine ⟨fun hf => ?_, fun hf => ?_, fun hf => ?_, fun hf => ?_⟩
              · obtain ⟨c, hcpw, hcs⟩ := hwit _ (mem_typeSets_iff.mpr (Or.inl ⟨hf, rfl⟩))
                exact ⟨c, hcpw, (mem_filter_allowed.mp hcs).1⟩
              · obtain ⟨c, hcpw, hcs⟩ := hwit _
                  (mem_typeSets_iff.mpr (Or.inr (Or.inl ⟨hf, rfl⟩)))
                exact ⟨c, hcpw, (mem_filter_allowed.mp hcs).1⟩
              · obtain ⟨c, hcpw, hcs⟩ := hwit _
                  (mem_typeSets_iff.mpr (Or.inr (Or.inr (Or.inl ⟨hf, rfl⟩))))
                exact ⟨c, hcpw, (mem_filter_allowed.mp hcs).1⟩
              · obtain ⟨c, hcpw, hcs⟩ := hwit _
                  (mem_typeSets_iff.mpr (Or.inr (Or.inr (Or.inr ⟨hf, rfl⟩))))
                exact ⟨c, hcpw, (mem_filter_allowed.mp hcs).1⟩
    · rw [if_neg hreq] at h
      cases hfc : fillChars g (allowedChars opts) opts.passwordLength 0 with
      | error e => simp [hfc] at h
      | ok q =>
        obtain ⟨cs, k2⟩ := q
        simp only [hfc, Except.ok.injEq] at h
        subst h
        obtain ⟨hflen, hfmem⟩ :=
          fillChars_spec g (allowedChars opts) opts.passwordLength 0 cs k2 hfc
        exact ⟨hflen, fun c hc => mem_allowedChars_elim (hfmem c hc),
          fun hre => absurd hre hreq⟩

/-- Witness for C8: with the constant-zero stream and all four classes
included in required-type mode at length five, the handler returns
`a A 0 ! a`, of the stated length and with a punctuation representative. -/
theorem get_random_password_properties_witness :
    get_random_password (fun _ => 0) optsC8 = .ok ['a', 'A', '0', '!', 'a'] ∧
    (['a', 'A', '0', '!', 'a'] : List Char).length = optsC8.passwordLength ∧
    (∃ c, c ∈ (['a', 'A', '0', '!', 'a'] : List Char) ∧ c ∈ PUNCTUATION) := by
  have h := get_random_password_properties (fun _ => 0) optsC8 ['a', 'A', '0', '!', 'a'] rfl
  exact ⟨rfl, h.1, (h.2.2 rfl).2.2.2 rfl⟩

end Loker
